import Mathlib

/-!
Verification development for the canonizer repository.

This file gives a shallow embedding, in Lean 4, of the core algorithms of the
repository: the lock-entry hash validation (src/canonizer/local/lock.py), the
root / reference resolution (src/canonizer/local/resolver.py), the schema
differ (src/canonizer/core/differ.py) and the transform patcher
(src/canonizer/core/patcher.py).  Python strings are modelled as `String` /
`List Char`; Python character classes (`\d`, `\s`, whitespace stripped by
`str.strip` and `int()`) are modelled by their ASCII fragments, which is
faithful on every input exercised below.  Fallible Python code (functions that
`raise`) is embedded with `Except` / `Option` return types.
-/

namespace Canonizer

/-! ## Python string primitives -/

/-- The whitespace characters stripped by Python `str.strip()` and tolerated
around an `int()` literal (ASCII fragment): space, tab, newline, carriage
return, vertical tab, form feed. -/
def isPySpace (c : Char) : Bool :=
  c == ' ' || c == '\t' || c == '\n' || c == '\r' || c == '\x0b' || c == '\x0c'

/-- Python `str.lstrip()` on a character list. -/
def pyLStrip (l : List Char) : List Char := l.dropWhile isPySpace

/-- Python `str.rstrip()` on a character list. -/
def pyRStrip (l : List Char) : List Char := (l.reverse.dropWhile isPySpace).reverse

/-- Python `str.strip()` on a character list. -/
def pyStrip (l : List Char) : List Char := pyRStrip (pyLStrip l)

/-- ASCII decimal digit (the ASCII fragment of the regex class `\d`). -/
def isAsciiDigit (c : Char) : Bool := decide ('0' ≤ c) && decide (c ≤ '9')

/-- A lowercase hexadecimal digit. -/
def isLowerHexDigit (c : Char) : Bool :=
  isAsciiDigit c || (decide ('a' ≤ c) && decide (c ≤ 'f'))

/-- A hexadecimal digit as accepted by Python `int(s, 16)`: either case. -/
def isHexDigitPy (c : Char) : Bool :=
  isLowerHexDigit c || (decide ('A' ≤ c) && decide (c ≤ 'F'))

/-! ## Python `int(s, 16)` acceptance

`SchemaLock.validate_hash_format` checks its hash with `int(hex_part, 16)`
inside a `try`.  CPython accepts: optional surrounding whitespace, an optional
sign, an optional `0x`/`0X` prefix (optionally followed by one underscore),
then hexadecimal digits of either case with single underscores allowed between
digits.  `hexDigitsTail` consumes digit/underscore runs after at least one
digit has been read. -/

mutual
/-- Digit/underscore run after at least one digit has been read. -/
def hexDigitsTail : List Char → Bool
  | [] => true
  | c :: rest =>
    if c == '_' then hexAfterUnderscore rest
    else isHexDigitPy c && hexDigitsTail rest

/-- After an underscore a digit must follow immediately. -/
def hexAfterUnderscore : List Char → Bool
  | [] => false
  | d :: rest2 => isHexDigitPy d && hexDigitsTail rest2
end

/-- At least one hexadecimal digit, underscores only between digits. -/
def hexDigitsOk : List Char → Bool
  | [] => false
  | c :: rest => isHexDigitPy c && hexDigitsTail rest

/-- The part of a base-16 `int()` literal after the optional sign: an optional
`0x`/`0X` prefix (optionally followed by a single underscore) and then the
digit run. -/
def hexBody (l : List Char) : Bool :=
  match l with
  | c :: x :: rest =>
    if c == '0' && (x == 'x' || x == 'X') then
      match rest with
      | '_' :: r => hexDigitsOk r
      | r => hexDigitsOk r
    else hexDigitsOk (c :: x :: rest)
  | l => hexDigitsOk l

/-- Whether Python `int(s, 16)` accepts the string (returns without raising
`ValueError`). -/
def pyIntHexOk (l : List Char) : Bool :=
  let s := pyStrip l
  let s1 := if s.head? == some '+' || s.head? == some '-' then s.tail else s
  hexBody s1

/-! ## Lock entries (src/canonizer/local/lock.py) -/

/-- Embedding of `SchemaLock.validate_hash_format` and
`TransformLock.validate_hash_format` (lock.py lines 43-78; the two pydantic
validators are textually identical).  Returns the accepted hash string, or the
message of the `ValueError` raised.  `v.startswith("sha256:")` is modelled as
the first seven characters equalling those of `sha256:`; the slice `v[7:]` is
`List.drop 7` on the characters; the `int(hex_part, 16)` probe is
`pyIntHexOk`. -/
def validate_hash_format (v : String) : Except String String :=
  if ¬ (v.data.take 7 = "sha256:".data) then
    .error "Hash must start with \x27sha256:\x27"
  else
    let hex_part := v.data.drop 7
    if hex_part.length ≠ 64 then .error "SHA256 hash must be 64 hex characters"
    else if ¬ pyIntHexOk hex_part then .error "Hash must be valid hexadecimal"
    else .ok v

/-- Lock entry for a schema (`SchemaLock`). -/
structure SchemaLock where
  path : String
  hash : String
deriving Repr, DecidableEq

/-- Lock entry for a transform (`TransformLock`). -/
structure TransformLock where
  path : String
  hash : String
deriving Repr, DecidableEq

/-- Pydantic construction of a `SchemaLock`: the `hash` field validator runs,
and construction raises (errors) exactly when the validator raises. -/
def SchemaLock.make (path hash : String) : Except String SchemaLock :=
  (validate_hash_format hash).map (fun h => { path := path, hash := h })

/-- Pydantic construction of a `TransformLock`. -/
def TransformLock.make (path hash : String) : Except String TransformLock :=
  (validate_hash_format hash).map (fun h => { path := path, hash := h })

/-- The format the spec asserts for lock-entry hashes: the literal prefix
`sha256:` followed by exactly 64 lowercase hexadecimal characters. -/
def lowercaseSha256Format (v : String) : Bool :=
  v.data.take 7 == "sha256:".data && (v.data.drop 7).length == 64
    && (v.data.drop 7).all isLowerHexDigit

/-! ## Supporting lemmas on the Python string primitives -/

theorem dropWhile_eq_self_of_forall {p : Char → Bool} {l : List Char}
    (h : ∀ c ∈ l, p c = false) : l.dropWhile p = l := by
  cases l with
  | nil => rfl
  | cons c r => simp [List.dropWhile_cons, h c (by simp)]

theorem pyStrip_eq_self {l : List Char} (h : ∀ c ∈ l, isPySpace c = false) :
    pyStrip l = l := by
  unfold pyStrip pyLStrip pyRStrip
  rw [dropWhile_eq_self_of_forall h,
    dropWhile_eq_self_of_forall (fun c hc => h c (List.mem_reverse.mp hc)),
    List.reverse_reverse]

theorem ne_of_hexDigitPy {c d : Char} (h : isHexDigitPy c = true)
    (hd : isHexDigitPy d = false) : c ≠ d :=
  fun he => by rw [he, hd] at h; exact Bool.false_ne_true h

theorem isPySpace_eq_false_of_hex {c : Char} (h : isHexDigitPy c = true) :
    isPySpace c = false := by
  by_contra hne
  cases hx : isPySpace c with
  | false => exact hne hx
  | true =>
    have hs := hx
    simp only [isPySpace, Bool.or_eq_true, beq_iff_eq] at hs
    rcases hs with ((((rfl|rfl)|rfl)|rfl)|rfl)|rfl <;> exact absurd h (by decide)

theorem isHexDigitPy_of_lower {c : Char} (h : isLowerHexDigit c = true) :
    isHexDigitPy c = true := by
  unfold isHexDigitPy
  rw [h]
  rfl

theorem hexDigitsTail_of_all {l : List Char}
    (h : ∀ c ∈ l, isHexDigitPy c = true) : hexDigitsTail l = true := by
  induction l with
  | nil => rfl
  | cons c r ih =>
    have hc : isHexDigitPy c = true := h c (List.mem_cons_self c r)
    have hne : (c == '_') = false :=
      beq_eq_false_iff_ne.mpr (ne_of_hexDigitPy hc (by decide))
    simp [hexDigitsTail, hne, hc, ih (fun d hd => h d (List.mem_cons_of_mem c hd))]

theorem hexDigitsOk_of_all {l : List Char} (hne : l ≠ [])
    (h : ∀ c ∈ l, isHexDigitPy c = true) : hexDigitsOk l = true := by
  cases l with
  | nil => exact absurd rfl hne
  | cons c r =>
    simp [hexDigitsOk, h c (List.mem_cons_self c r),
      hexDigitsTail_of_all (fun d hd => h d (List.mem_cons_of_mem c hd))]

theorem hexBody_of_all {l : List Char} (hne : l ≠ [])
    (h : ∀ c ∈ l, isHexDigitPy c = true) : hexBody l = true := by
  have hok := hexDigitsOk_of_all hne h
  cases l with
  | nil => exact absurd rfl hne
  | cons c r =>
    cases r with
    | nil => exact hok
    | cons x rest =>
      have hx : isHexDigitPy x = true :=
        h x (List.mem_cons_of_mem c (List.mem_cons_self x rest))
      have hx1 : (x == 'x') = false :=
        beq_eq_false_iff_ne.mpr (ne_of_hexDigitPy hx (by decide))
      have hx2 : (x == 'X') = false :=
        beq_eq_false_iff_ne.mpr (ne_of_hexDigitPy hx (by decide))
      simpa [hexBody, hx1, hx2] using hok

theorem pyIntHexOk_of_all {l : List Char} (hne : l ≠ [])
    (h : ∀ c ∈ l, isHexDigitPy c = true) : pyIntHexOk l = true := by
  unfold pyIntHexOk
  rw [pyStrip_eq_self (fun c hc => isPySpace_eq_false_of_hex (h c hc))]
  cases l with
  | nil => exact absurd rfl hne
  | cons c r =>
    have hc := h c (List.mem_cons_self c r)
    have h1 : (c == '+') = false :=
      beq_eq_false_iff_ne.mpr (ne_of_hexDigitPy hc (by decide))
    have h2 : (c == '-') = false :=
      beq_eq_false_iff_ne.mpr (ne_of_hexDigitPy hc (by decide))
    simpa [h1, h2] using hexBody_of_all (l := c :: r) (by simp) h

theorem validate_hash_format_isOk_iff (v : String) :
    (validate_hash_format v).isOk = true ↔
      v.data.take 7 = "sha256:".data ∧ (v.data.drop 7).length = 64 ∧
        pyIntHexOk (v.data.drop 7) = true := by
  unfold validate_hash_format
  by_cases h1 : v.data.take 7 = "sha256:".data
  · rw [if_neg (not_not_intro h1)]
    by_cases h2 : (v.data.drop 7).length = 64
    · rw [if_neg (not_not_intro h2)]
      by_cases h3 : pyIntHexOk (v.data.drop 7) = true
      · rw [if_neg (not_not_intro h3)]
        simp [h1, h2, h3, Except.isOk, Except.toBool]
      · rw [if_pos h3]
        simp [h3, Except.isOk, Except.toBool]
    · rw [if_pos h2]
      have h2x : ¬ (v.data.length - 7 = 64) := by simpa using h2
      have h2y : ¬ (v.length - 7 = 64) := h2x
      simp [h2, h2x, h2y, Except.isOk, Except.toBool]
  · rw [if_pos h1]
    simp [h1, Except.isOk, Except.toBool]

theorem except_map_isOk {α β : Type} (f : α → β) (e : Except String α) :
    (e.map f).isOk = e.isOk := by
  cases e <;> rfl

/-- C9 counterexample: a hash of 64 uppercase hexadecimal characters after the
`sha256:` prefix is accepted at lock-entry construction although it is not the
prefix followed by 64 lowercase hexadecimal characters, refuting the claim
that every other hash string is rejected at construction. -/
theorem C9_counterexample :
    (SchemaLock.make "p"
        (String.mk ("sha256:".data ++ List.replicate 64 'A'))).isOk = true
      ∧ lowercaseSha256Format
          (String.mk ("sha256:".data ++ List.replicate 64 'A')) = false := by
  decide

/-- C9 (amended): construction of a lock entry (`SchemaLock` or
`TransformLock`) succeeds exactly when the hash string is the literal prefix
`sha256:` followed by exactly 64 characters accepted by Python `int(s, 16)` —
hexadecimal digits of either case, optionally with surrounding whitespace, a
sign, an `0x` prefix, or single embedded underscores.  Every `sha256:` plus 64
lowercase hexadecimal characters is accepted, but lowercase is not enforced. -/
theorem C9_lock_hash_validation (path v : String) :
    ((SchemaLock.make path v).isOk = true ↔
      ∃ rest : List Char, v.data = "sha256:".data ++ rest ∧ rest.length = 64 ∧
        pyIntHexOk rest = true)
    ∧ (TransformLock.make path v).isOk = (SchemaLock.make path v).isOk
    ∧ (lowercaseSha256Format v = true → (SchemaLock.make path v).isOk = true) := by
  have hmk : (SchemaLock.make path v).isOk = (validate_hash_format v).isOk :=
    except_map_isOk _ _
  have hmk2 : (TransformLock.make path v).isOk = (validate_hash_format v).isOk :=
    except_map_isOk _ _
  refine ⟨?_, by rw [hmk, hmk2], ?_⟩
  · rw [hmk, validate_hash_format_isOk_iff]
    constructor
    · rintro ⟨h1, h2, h3⟩
      refine ⟨v.data.drop 7, ?_, h2, h3⟩
      rw [← h1]
      exact (List.take_append_drop 7 v.data).symm
    · rintro ⟨rest, hv, hlen, hok⟩
      have hpre : ("sha256:".data : List Char).length = 7 := by decide
      refine ⟨?_, ?_, ?_⟩
      · rw [hv, List.take_left' hpre]
      · rw [hv, List.drop_left' hpre, hlen]
      · rw [hv, List.drop_left' hpre]; exact hok
  · intro hl
    have hl' := hl
    simp only [lowercaseSha256Format, Bool.and_eq_true, beq_iff_eq] at hl'
    obtain ⟨⟨h1, h2⟩, h3⟩ := hl'
    rw [hmk, validate_hash_format_isOk_iff]
    refine ⟨h1, h2, ?_⟩
    have hne : v.data.drop 7 ≠ [] := by
      intro hcon
      rw [hcon] at h2
      exact absurd h2 (by decide)
    refine pyIntHexOk_of_all hne (fun c hc => ?_)
    have := List.all_eq_true.mp h3 c hc
    exact isHexDigitPy_of_lower this

/-- Witness for C9: the amended characterization applied at a concrete
lowercase hash string. -/
theorem C9_lock_hash_validation_witness :
    (SchemaLock.make "schemas/a.json"
        (String.mk ("sha256:".data ++ List.replicate 64 'a'))).isOk = true :=
  (C9_lock_hash_validation "schemas/a.json"
    (String.mk ("sha256:".data ++ List.replicate 64 'a'))).2.2 (by decide)

/-! ## SHA-256 (`hashlib.sha256(...).hexdigest()`), over byte lists -/

/-- Truncation to a 32-bit word. -/
def w32 (n : Nat) : Nat := n % 4294967296

def add32 (a b : Nat) : Nat := w32 (a + b)

/-- Right rotation of a 32-bit word. -/
def rotr (x k : Nat) : Nat := w32 ((x >>> k) ||| (x <<< (32 - k)))

def smallSigma0 (x : Nat) : Nat := (rotr x 7) ^^^ (rotr x 18) ^^^ (x >>> 3)
def smallSigma1 (x : Nat) : Nat := (rotr x 17) ^^^ (rotr x 19) ^^^ (x >>> 10)
def bigSigma0 (x : Nat) : Nat := (rotr x 2) ^^^ (rotr x 13) ^^^ (rotr x 22)
def bigSigma1 (x : Nat) : Nat := (rotr x 6) ^^^ (rotr x 11) ^^^ (rotr x 25)
def ch (x y z : Nat) : Nat := (x &&& y) ^^^ ((x ^^^ 4294967295) &&& z)
def maj (x y z : Nat) : Nat := (x &&& y) ^^^ (x &&& z) ^^^ (y &&& z)

/-- The SHA-256 round constants. -/
def K256 : List Nat :=
  [1116352408, 1899447441, 3049323471, 3921009573, 961987163,
   1508970993, 2453635748, 2870763221, 3624381080, 310598401,
   607225278, 1426881987, 1925078388, 2162078206, 2614888103,
   3248222580, 3835390401, 4022224774, 264347078, 604807628,
   770255983, 1249150122, 1555081692, 1996064986, 2554220882,
   2821834349, 2952996808, 3210313671, 3336571891, 3584528711,
   113926993, 338241895, 666307205, 773529912, 1294757372,
   1396182291, 1695183700, 1986661051, 2177026350, 2456956037,
   2730485921, 2820302411, 3259730800, 3345764771, 3516065817,
   3600352804, 4094571909, 275423344, 430227734, 506948616,
   659060556, 883997877, 958139571, 1322822218, 1537002063,
   1747873779, 1955562222, 2024104815, 2227730452, 2361852424,
   2428436474, 2756734187, 3204031479, 3329325298]

/-- The SHA-256 initial hash state. -/
def H256 : List Nat :=
  [1779033703, 3144134277, 1013904242, 2773480762,
   1359893119, 2600822924, 528734635, 1541459225]

/-- Big-endian byte rendering of a number on `k` bytes. -/
def beBytes : Nat → Nat → List Nat
  | 0, _ => []
  | k + 1, n => beBytes k (n / 256) ++ [n % 256]

/-- SHA-256 message padding: append `0x80`, zero bytes up to 56 mod 64, then
the 64-bit big-endian bit length. -/
def sha256pad (msg : List Nat) : List Nat :=
  msg ++ [128] ++ List.replicate ((119 - msg.length % 64) % 64) 0
    ++ beBytes 8 (msg.length * 8)

/-- Split into 64-byte blocks (structural recursion on a fuel bound that
dominates the number of blocks). -/
def chunks64Aux : Nat → List Nat → List (List Nat)
  | 0, _ => []
  | fuel + 1, l => if l = [] then [] else l.take 64 :: chunks64Aux fuel (l.drop 64)

/-- Split into 64-byte blocks. -/
def chunks64 (l : List Nat) : List (List Nat) := chunks64Aux l.length l

/-- Pack bytes into big-endian 32-bit words. -/
def toWords : List Nat → List Nat
  | b0 :: b1 :: b2 :: b3 :: rest =>
    (((b0 * 256 + b1) * 256 + b2) * 256 + b3) :: toWords rest
  | _ => []

/-- Extend the 16-word schedule by `k` further words. -/
def extendW : Nat → List Nat → List Nat
  | 0, w => w
  | k + 1, w =>
    let t := w.length
    extendW k (w ++ [w32 (w.getD (t - 16) 0 + smallSigma0 (w.getD (t - 15) 0)
      + w.getD (t - 7) 0 + smallSigma1 (w.getD (t - 2) 0))])

/-- One compression round on the state `[a, b, c, d, e, f, g, h]`. -/
def compressRound (wt kt : Nat) (s : List Nat) : List Nat :=
  match s with
  | [a, b, c, d, e, f, g, h] =>
    let t1 := w32 (h + bigSigma1 e + ch e f g + kt + wt)
    let t2 := w32 (bigSigma0 a + maj a b c)
    [add32 t1 t2, a, b, c, add32 d t1, e, f, g]
  | s => s

/-- Compress one 64-byte block into the running hash state. -/
def compressBlock (hs : List Nat) (block : List Nat) : List Nat :=
  let w := extendW 48 (toWords block)
  let final := (List.range 64).foldl
    (fun s t => compressRound (w.getD t 0) (K256.getD t 0) s) hs
  List.zipWith add32 hs final

/-- SHA-256 of a byte list, as the eight 32-bit state words. -/
def sha256words (msg : List Nat) : List Nat :=
  (chunks64 (sha256pad msg)).foldl compressBlock H256

/-- A nibble as a lowercase hexadecimal character. -/
def hexChar (n : Nat) : Char :=
  "0123456789abcdef".data.getD n '0'

/-- A 32-bit word as eight lowercase hexadecimal characters. -/
def toHex8 (n : Nat) : List Char :=
  (List.range 8).map (fun i => hexChar (n / 16 ^ (7 - i) % 16))

/-- `hashlib.sha256(content).hexdigest()`: the 64-character lowercase
hexadecimal digest of a byte list. -/
def hexdigest (msg : List Nat) : String :=
  String.mk ((sha256words msg).map toHex8).flatten


/-! ## The lock file (src/canonizer/local/lock.py, class LockFile)

`schemas` and `transforms` are Python dicts from reference string to lock
entry; a dict is modelled as an insertion-ordered association list with the
update semantics of dict assignment: replace in place when the key exists,
append otherwise.  `version` and `updated_at` play no role in the claims
settled here but are carried for completeness. -/

/-- Python dict assignment `m[k] = v` on an association list. -/
def dictSet {α : Type} (m : List (String × α)) (k : String) (v : α) :
    List (String × α) :=
  if m.any (fun p => p.1 == k) then
    m.map (fun p => if p.1 == k then (k, v) else p)
  else m ++ [(k, v)]

/-- The lock document (`LockFile` pydantic model). -/
structure LockFile where
  version : String := "1"
  updated_at : Option String := none
  schemas : List (String × SchemaLock) := []
  transforms : List (String × TransformLock) := []

/-- `LockFile.add_schema` (lock.py lines 145-159): hash the content bytes,
prefix with `sha256:` and store the entry under the reference, overwriting
any prior entry.  The pydantic `SchemaLock` construction inside cannot fail
because a digest is always 64 lowercase hexadecimal characters. -/
def LockFile.add_schema (lf : LockFile) (schema_ref path : String)
    (content : List Nat) : LockFile :=
  let hash_value := "sha256:" ++ hexdigest content
  { lf with schemas := dictSet lf.schemas schema_ref ⟨path, hash_value⟩ }

/-- `LockFile.add_transform` (lock.py lines 161-175). -/
def LockFile.add_transform (lf : LockFile) (transform_ref path : String)
    (jsonata_content : List Nat) : LockFile :=
  let hash_value := "sha256:" ++ hexdigest jsonata_content
  { lf with transforms := dictSet lf.transforms transform_ref ⟨path, hash_value⟩ }

/-- `LockFile.verify_schema` (lock.py lines 201-216): `False` when the
reference has no entry, otherwise compare the stored hash against the fresh
`sha256:`-prefixed digest of the given content. -/
def LockFile.verify_schema (lf : LockFile) (schema_ref : String)
    (content : List Nat) : Bool :=
  match lf.schemas.lookup schema_ref with
  | none => false
  | some entry => entry.hash == "sha256:" ++ hexdigest content

/-- `LockFile.verify_transform` (lock.py lines 218-233). -/
def LockFile.verify_transform (lf : LockFile) (transform_ref : String)
    (jsonata_content : List Nat) : Bool :=
  match lf.transforms.lookup transform_ref with
  | none => false
  | some entry => entry.hash == "sha256:" ++ hexdigest jsonata_content

/-! ### Association-list lemmas -/

theorem lookup_map_replace {α : Type} (k : String) (v : α) :
    ∀ m : List (String × α), m.any (fun p => p.1 == k) = true →
      (m.map (fun p => if p.1 == k then (k, v) else p)).lookup k = some v := by
  intro m
  induction m with
  | nil => intro h; simp at h
  | cons p r ih =>
    intro h
    by_cases hp : (p.1 == k) = true
    · rw [List.map_cons, if_pos hp]
      simp [List.lookup]
    · have hp2 : (p.1 == k) = false := by
        cases hx : p.1 == k
        · rfl
        · exact absurd hx hp
      have hk : (k == p.1) = false :=
        beq_eq_false_iff_ne.mpr (Ne.symm (beq_eq_false_iff_ne.mp hp2))
      have hr : r.any (fun p => p.1 == k) = true := by
        simpa [List.any_cons, hp2] using h
      rw [List.map_cons, if_neg hp]
      simp only [List.lookup, hk]
      exact ih hr

theorem lookup_append_of_none {α : Type} (k : String)
    (l : List (String × α)) :
    ∀ m : List (String × α), m.any (fun p => p.1 == k) = false →
      (m ++ l).lookup k = l.lookup k := by
  intro m
  induction m with
  | nil => intro _; rfl
  | cons p r ih =>
    intro h
    simp only [List.any_cons, Bool.or_eq_false_iff] at h
    have hk : (k == p.1) = false :=
      beq_eq_false_iff_ne.mpr (Ne.symm (beq_eq_false_iff_ne.mp h.1))
    simp [List.lookup, hk, ih h.2]

/-- Looking up the key just assigned always finds the assigned value. -/
theorem lookup_dictSet {α : Type} (m : List (String × α)) (k : String)
    (v : α) : (dictSet m k v).lookup k = some v := by
  unfold dictSet
  by_cases hany : m.any (fun p => p.1 == k) = true
  · rw [if_pos hany]
    exact lookup_map_replace k v m hany
  · have hany2 : m.any (fun p => p.1 == k) = false := by
      cases hx : m.any (fun p => p.1 == k)
      · rfl
      · exact absurd hx hany
    rw [if_neg (by simp [hany2])]
    rw [lookup_append_of_none k _ m hany2]
    simp [List.lookup]

theorem string_append_left_cancel {p x y : String}
    (h : p ++ x = p ++ y) : x = y := by
  have hd := congrArg String.data h
  rw [String.data_append, String.data_append] at hd
  have hxy := List.append_cancel_left hd
  cases x; cases y
  exact congrArg String.mk hxy

/-- C7: on any lock file, `add_schema(ref, path, bytes)` followed immediately
by `verify_schema(ref, bytes)` returns true, and `verify_schema(ref, b2)`
returns false for any byte sequence `b2` whose SHA-256 digest differs from
that of `bytes`; the analogous statements hold for `add_transform` /
`verify_transform`. -/
theorem C7_lock_hash_stability (lf : LockFile) (ref path : String)
    (b b2 : List Nat) :
    ((lf.add_schema ref path b).verify_schema ref b = true)
    ∧ (hexdigest b2 ≠ hexdigest b →
        (lf.add_schema ref path b).verify_schema ref b2 = false)
    ∧ ((lf.add_transform ref path b).verify_transform ref b = true)
    ∧ (hexdigest b2 ≠ hexdigest b →
        (lf.add_transform ref path b).verify_transform ref b2 = false) := by
  unfold LockFile.add_schema LockFile.verify_schema
  unfold LockFile.add_transform LockFile.verify_transform
  simp only [lookup_dictSet]
  have hdiff : hexdigest b2 ≠ hexdigest b →
      (("sha256:" ++ hexdigest b : String) == "sha256:" ++ hexdigest b2) = false := by
    intro hne
    refine beq_eq_false_iff_ne.mpr (fun he => hne ?_)
    exact (string_append_left_cancel he).symm
  refine ⟨by simp, fun hne => ?_, by simp, fun hne => ?_⟩ <;>
    simp [hdiff hne]

set_option maxRecDepth 10000 in
/-- Witness for C7: a concrete lock file, reference and two byte sequences
with distinct digests. -/
theorem C7_lock_hash_stability_witness :
    ((({} : LockFile).add_schema "iglu:com.acme/thing/jsonschema/1-0-0"
        "schemas/x.json" [97]).verify_schema
          "iglu:com.acme/thing/jsonschema/1-0-0" [97] = true)
    ∧ ((({} : LockFile).add_schema "iglu:com.acme/thing/jsonschema/1-0-0"
        "schemas/x.json" [97]).verify_schema
          "iglu:com.acme/thing/jsonschema/1-0-0" [98] = false) :=
  ⟨(C7_lock_hash_stability {} "iglu:com.acme/thing/jsonschema/1-0-0"
      "schemas/x.json" [97] [98]).1,
   (C7_lock_hash_stability {} "iglu:com.acme/thing/jsonschema/1-0-0"
      "schemas/x.json" [97] [98]).2.1 (by decide)⟩



/-! ## Reference grammar (src/canonizer/local/resolver.py)

The schema-reference regex is
`^iglu:([a-zA-Z0-9._-]+)/([a-zA-Z0-9_-]+)/jsonschema/(\d+-\d+-\d+)$`.
In Python `re` (without `MULTILINE`) the anchor `$` matches at the end of the
string or just before one final newline, so the regex accepts the core
grammar with an optional trailing `\n` that belongs to no capture group.
None of the capture classes admits `/`, so after stripping that optional
newline the regex matches exactly when the text after the `iglu:` prefix
splits at `/` into four segments of the respective shapes, the third being
the literal `jsonschema`; matching and the capture groups are
deterministic. -/

/-- Split a character list at every occurrence of a separator character.  The
result is always nonempty, and rejoining with the separator restores the
input. -/
def splitOnChar (sep : Char) : List Char → List (List Char)
  | [] => [[]]
  | c :: rest =>
    match splitOnChar sep rest with
    | [] => [[]]
    | h :: t => if c == sep then [] :: h :: t else (c :: h) :: t

/-- Rejoin segments with a separator character. -/
def joinSep (sep : Char) : List (List Char) → List Char
  | [] => []
  | [x] => x
  | x :: y :: rest => x ++ sep :: joinSep sep (y :: rest)

/-- Character class `[a-zA-Z0-9._-]` (the vendor segment). -/
def isVendorChar (c : Char) : Bool :=
  c.isAlpha || c.isDigit || c == '.' || c == '_' || c == '-'

/-- Character class `[a-zA-Z0-9_-]` (the name segment). -/
def isNameChar (c : Char) : Bool :=
  c.isAlpha || c.isDigit || c == '_' || c == '-'

/-- The dash triplet `\d+-\d+-\d+` (ASCII digits): splitting at `-` gives
exactly three nonempty all-digit groups. -/
def dashTripletOk (l : List Char) : Bool :=
  match splitOnChar '-' l with
  | [a, b, c] =>
    !a.isEmpty && a.all isAsciiDigit && !b.isEmpty && b.all isAsciiDigit
      && !c.isEmpty && c.all isAsciiDigit
  | _ => false

/-- The part of a string an anchored Python regex must cover: `$` also
matches just before one trailing newline, so such a newline is outside the
match. -/
def pyRegexCore (l : List Char) : List Char :=
  if l.getLast? == some '\n' then l.dropLast else l

/-- `parse_iglu_ref` (resolver.py lines 114-132): returns the capture groups
`(vendor, name, version)` or raises `InvalidReferenceError`.  Matching runs
on `pyRegexCore` of the input, reflecting the `$`-before-final-newline
semantics of Python `re`. -/
def parse_iglu_ref (schema_ref : String) :
    Except String (String × String × String) :=
  if (pyRegexCore schema_ref.data).take 5 = "iglu:".data then
    match splitOnChar '/' ((pyRegexCore schema_ref.data).drop 5) with
    | [vendor, name, fmt, version] =>
      if vendor ≠ [] ∧ vendor.all isVendorChar ∧ name ≠ [] ∧ name.all isNameChar
          ∧ fmt = "jsonschema".data ∧ dashTripletOk version then
        .ok (String.mk vendor, String.mk name, String.mk version)
      else
        .error ("Invalid Iglu schema reference: " ++ schema_ref
          ++ ". Expected format: iglu:vendor/name/jsonschema/X-Y-Z")
    | _ =>
      .error ("Invalid Iglu schema reference: " ++ schema_ref
        ++ ". Expected format: iglu:vendor/name/jsonschema/X-Y-Z")
  else
    .error ("Invalid Iglu schema reference: " ++ schema_ref
      ++ ". Expected format: iglu:vendor/name/jsonschema/X-Y-Z")

/-- `schema_ref_to_path` (resolver.py lines 291-304): the f-string
`schemas/{vendor}/{name}/jsonschema/{version}.json` over the parsed
components, propagating `InvalidReferenceError`. -/
def schema_ref_to_path (schema_ref : String) : Except String String :=
  (parse_iglu_ref schema_ref).map (fun p =>
    "schemas/" ++ p.1 ++ "/" ++ p.2.1 ++ "/jsonschema/" ++ p.2.2 ++ ".json")

/-- Recovery of `(vendor, name, version)` from a relative registry path of the
form `schemas/{vendor}/{name}/jsonschema/{version}.json` (the inverse reading
the spec asserts): split at `/` into five segments with the fixed first and
fourth segments and strip the `.json` suffix. -/
def schema_path_components (p : String) : Option (String × String × String) :=
  match splitOnChar '/' p.data with
  | [s0, v, n, f, file] =>
    if s0 = "schemas".data ∧ f = "jsonschema".data ∧ 5 ≤ file.length
        ∧ file.drop (file.length - 5) = ".json".data then
      some (String.mk v, String.mk n, String.mk (file.take (file.length - 5)))
    else none
  | _ => none



/-! ### Lemmas on `splitOnChar` / `joinSep` -/

theorem splitOnChar_cons (sep c : Char) (rest : List Char) :
    splitOnChar sep (c :: rest) =
      match splitOnChar sep rest with
      | [] => [[]]
      | h :: t => if c == sep then [] :: h :: t else (c :: h) :: t := rfl

theorem splitOnChar_ne_nil (sep : Char) (l : List Char) :
    splitOnChar sep l ≠ [] := by
  cases l with
  | nil => simp [splitOnChar]
  | cons c rest =>
    rw [splitOnChar_cons]
    cases splitOnChar sep rest with
    | nil => simp
    | cons h t =>
      by_cases hc : (c == sep) = true
      · simp [hc]
      · simp [hc]

theorem joinSep_cons_cons (sep : Char) (x y : List Char)
    (t : List (List Char)) :
    joinSep sep (x :: y :: t) = x ++ sep :: joinSep sep (y :: t) := rfl

theorem joinSep_splitOnChar (sep : Char) (l : List Char) :
    joinSep sep (splitOnChar sep l) = l := by
  induction l with
  | nil => rfl
  | cons c rest ih =>
    rw [splitOnChar_cons]
    cases hsp : splitOnChar sep rest with
    | nil => exact absurd hsp (splitOnChar_ne_nil sep rest)
    | cons h t =>
      rw [hsp] at ih
      by_cases hc : (c == sep) = true
      · have hceq : c = sep := beq_iff_eq.mp hc
        subst hceq
        simp only [if_pos hc, joinSep_cons_cons, List.nil_append]
        rw [ih]
      · have hstep : ∀ (x : List Char) (t2 : List (List Char)),
            joinSep sep ((c :: x) :: t2) = c :: joinSep sep (x :: t2) := by
          intro x t2
          cases t2 with
          | nil => rfl
          | cons y ys => simp [joinSep_cons_cons]
        simp only [if_neg hc]
        rw [hstep, ih]

theorem splitOnChar_append (sep : Char) (a rest : List Char)
    (h : ∀ c ∈ a, (c == sep) = false) :
    splitOnChar sep (a ++ sep :: rest) = a :: splitOnChar sep rest := by
  induction a with
  | nil =>
    rw [List.nil_append, splitOnChar_cons]
    cases hsp : splitOnChar sep rest with
    | nil => exact absurd hsp (splitOnChar_ne_nil sep rest)
    | cons h1 t => simp
  | cons c a2 ih =>
    rw [List.cons_append, splitOnChar_cons,
      ih (fun d hd => h d (List.mem_cons_of_mem c hd))]
    simp [h c (List.mem_cons_self c a2)]

theorem splitOnChar_no_sep (sep : Char) (a : List Char)
    (h : ∀ c ∈ a, (c == sep) = false) : splitOnChar sep a = [a] := by
  induction a with
  | nil => rfl
  | cons c a2 ih =>
    rw [splitOnChar_cons, ih (fun d hd => h d (List.mem_cons_of_mem c hd))]
    simp [h c (List.mem_cons_self c a2)]

theorem beq_eq_false_of_pred {p : Char → Bool} {c d : Char}
    (h : p c = true) (hd : p d = false) : (c == d) = false :=
  beq_eq_false_iff_ne.mpr (fun he => by rw [he, hd] at h; exact Bool.false_ne_true h)

/-- Every character of a dash triplet is an ASCII digit or a dash. -/
theorem dashTriplet_chars {l : List Char} (h : dashTripletOk l = true) :
    ∀ x ∈ l, isAsciiDigit x = true ∨ x = '-' := by
  unfold dashTripletOk at h
  split at h
  case _ a b c heq =>
    simp only [Bool.and_eq_true, List.all_eq_true] at h
    obtain ⟨⟨⟨⟨⟨_, ha⟩, _⟩, hb⟩, _⟩, hc⟩ := h
    intro x hx
    have hl : l = a ++ '-' :: (b ++ '-' :: c) := by
      have := joinSep_splitOnChar '-' l
      rw [heq] at this
      simpa [joinSep_cons_cons] using this.symm
    rw [hl] at hx
    simp only [List.mem_append, List.mem_cons] at hx
    rcases hx with hx | hx | hx
    · exact Or.inl (ha x hx)
    · exact Or.inr hx
    · rcases hx with hx | hx | hx
      · exact Or.inl (hb x hx)
      · exact Or.inr hx
      · exact Or.inl (hc x hx)
  case _ => exact absurd h (by simp)

theorem string_data_ext {s t : String} (h : s.data = t.data) : s = t := by
  cases s; cases t; exact congrArg String.mk h

/-- Structural description of an accepted schema reference: the regex match
covers `pyRegexCore` of the input (everything except an optional final
newline). -/
theorem parse_iglu_ref_ok {s v n ver : String}
    (h : parse_iglu_ref s = .ok (v, n, ver)) :
    pyRegexCore s.data = "iglu:".data
        ++ (v.data ++ '/' :: (n.data ++ '/' :: ("jsonschema".data ++ '/' :: ver.data)))
      ∧ v.data ≠ [] ∧ v.data.all isVendorChar = true
      ∧ n.data ≠ [] ∧ n.data.all isNameChar = true
      ∧ dashTripletOk ver.data = true := by
  unfold parse_iglu_ref at h
  by_cases h5 : (pyRegexCore s.data).take 5 = "iglu:".data
  case neg => rw [if_neg h5] at h; exact absurd h (by simp)
  case pos =>
    rw [if_pos h5] at h
    split at h
    case _ vendor name fmt version heq =>
      split_ifs at h with hcond
      · obtain ⟨hv0, hvall, hn0, hnall, hfmt, hdash⟩ := hcond
        simp only [Except.ok.injEq, Prod.mk.injEq] at h
        obtain ⟨hveq, hneq, hvereq⟩ := h
        have hvd : v.data = vendor := by rw [← hveq]
        have hnd : n.data = name := by rw [← hneq]
        have hverd : ver.data = version := by rw [← hvereq]
        refine ⟨?_, ?_, ?_, ?_, ?_, ?_⟩
        · have hjoin := joinSep_splitOnChar '/' ((pyRegexCore s.data).drop 5)
          rw [heq] at hjoin
          have hdrop : (pyRegexCore s.data).drop 5
              = vendor ++ '/' :: (name ++ '/' :: (fmt ++ '/' :: version)) := by
            simpa [joinSep_cons_cons] using hjoin.symm
          have hta := List.take_append_drop 5 (pyRegexCore s.data)
          rw [hdrop, h5, hfmt] at hta
          rw [hvd, hnd, hverd]
          exact hta.symm
        · rw [hvd]; exact hv0
        · rw [hvd]; exact hvall
        · rw [hnd]; exact hn0
        · rw [hnd]; exact hnall
        · rw [hverd]; exact hdash
    case _ => exact absurd h (by simp)



/-- An accepted reference is reconstructed from its components exactly up to
one optional trailing newline (the part of the input Python `$` may leave
outside the match). -/
theorem parse_iglu_ref_recon {s v n ver : String}
    (h : parse_iglu_ref s = .ok (v, n, ver)) :
    s = "iglu:" ++ v ++ "/" ++ n ++ "/jsonschema/" ++ ver
      ∨ s = "iglu:" ++ v ++ "/" ++ n ++ "/jsonschema/" ++ ver ++ "\n" := by
  obtain ⟨hmain, _⟩ := parse_iglu_ref_ok h
  have d2 : ("/" : String).data = ['/'] := rfl
  have d3 : ("/jsonschema/" : String).data
      = '/' :: ("jsonschema".data ++ ['/']) := rfl
  have d4 : ("\n" : String).data = ['\n'] := rfl
  unfold pyRegexCore at hmain
  by_cases hnl : (s.data.getLast? == some '\n') = true
  · right
    rw [if_pos hnl] at hmain
    have hlast : s.data.getLast? = some '\n' := by simpa using hnl
    rcases List.eq_nil_or_concat s.data with hnil | ⟨pre, x, hx⟩
    · rw [hnil] at hlast
      simp at hlast
    · rw [List.concat_eq_append] at hx
      have hxn : x = '\n' := by
        rw [hx, List.getLast?_concat] at hlast
        exact Option.some.inj hlast
      subst hxn
      have hdl : s.data.dropLast = pre := by
        rw [hx]
        exact List.dropLast_concat
      rw [hdl] at hmain
      refine string_data_ext ?_
      rw [hx, hmain]
      simp [String.data_append, d2, d3, d4, List.append_assoc]
  · left
    rw [if_neg hnl] at hmain
    refine string_data_ext ?_
    rw [hmain]
    simp [String.data_append, d2, d3, List.append_assoc]

/-- The path built from accepted components decomposes back into exactly
those components. -/
theorem schema_path_components_of_parse {s v n ver : String}
    (h : parse_iglu_ref s = .ok (v, n, ver)) :
    schema_path_components
      ("schemas/" ++ v ++ "/" ++ n ++ "/jsonschema/" ++ ver ++ ".json")
      = some (v, n, ver) := by
  obtain ⟨hmain, hv0, hvall, hn0, hnall, hdash⟩ := parse_iglu_ref_ok h
  have hvnos : ∀ c ∈ v.data, (c == '/') = false := fun c hc =>
    beq_eq_false_of_pred (List.all_eq_true.mp hvall c hc) (by decide)
  have hnnos : ∀ c ∈ n.data, (c == '/') = false := fun c hc =>
    beq_eq_false_of_pred (List.all_eq_true.mp hnall c hc) (by decide)
  have hjs : ∀ c ∈ (".json" : String).data, (c == '/') = false := by decide
  have hfilenos : ∀ c ∈ ver.data ++ (".json" : String).data, (c == '/') = false := by
    intro c hc
    rcases List.mem_append.mp hc with hc | hc
    · rcases dashTriplet_chars hdash c hc with hd | hd
      · exact beq_eq_false_of_pred hd (by decide)
      · subst hd; decide
    · exact hjs c hc
  have hdata : ("schemas/" ++ v ++ "/" ++ n ++ "/jsonschema/" ++ ver ++ ".json").data
      = "schemas".data ++ '/' :: (v.data ++ '/' :: (n.data
          ++ '/' :: ("jsonschema".data ++ '/' :: (ver.data ++ ".json".data)))) := by
    have d1 : ("schemas/" : String).data = "schemas".data ++ ['/'] := rfl
    have d2 : ("/" : String).data = ['/'] := rfl
    have d3 : ("/jsonschema/" : String).data
        = '/' :: ("jsonschema".data ++ ['/']) := rfl
    simp [String.data_append, d1, d2, d3, List.append_assoc]
  unfold schema_path_components
  rw [hdata,
    splitOnChar_append '/' "schemas".data _ (by decide),
    splitOnChar_append '/' v.data _ hvnos,
    splitOnChar_append '/' n.data _ hnnos,
    splitOnChar_append '/' "jsonschema".data _ (by decide),
    splitOnChar_no_sep '/' (ver.data ++ ".json".data) hfilenos]
  have hlen : (ver.data ++ (".json" : String).data).length = ver.data.length + 5 := by
    simp [List.length_append]
  have hsub : (ver.data ++ (".json" : String).data).length - 5 = ver.data.length := by
    rw [hlen]
    omega
  have hdropfile : (ver.data ++ (".json" : String).data).drop
      ((ver.data ++ (".json" : String).data).length - 5) = ".json".data := by
    rw [hsub]
    exact List.drop_left ver.data ".json".data
  have hfive : 5 ≤ (ver.data ++ (".json" : String).data).length := by
    rw [hlen]; omega
  have htake : (ver.data ++ (".json" : String).data).take
      ((ver.data ++ (".json" : String).data).length - 5) = ver.data := by
    rw [hsub]
    exact List.take_left ver.data ".json".data
  dsimp only
  rw [if_pos ⟨rfl, rfl, hfive, hdropfile⟩, htake]

/-- C8 counterexample: Python `$` also matches just before one trailing
newline, so the regex accepts the reference with a final `\n` and captures
the newline-free groups; that reference maps to the same path as the
newline-free one, refuting exact reconstruction of the original reference
and injectivity of the reference-to-path mapping on accepted references. -/
theorem C8_counterexample :
    parse_iglu_ref "iglu:com.google/gmail_email/jsonschema/1-0-0\n"
      = .ok ("com.google", "gmail_email", "1-0-0")
    ∧ parse_iglu_ref "iglu:com.google/gmail_email/jsonschema/1-0-0"
      = .ok ("com.google", "gmail_email", "1-0-0")
    ∧ schema_ref_to_path "iglu:com.google/gmail_email/jsonschema/1-0-0\n"
      = schema_ref_to_path "iglu:com.google/gmail_email/jsonschema/1-0-0"
    ∧ "iglu:com.google/gmail_email/jsonschema/1-0-0\n"
      ≠ "iglu:com.google/gmail_email/jsonschema/1-0-0"
    ∧ "iglu:com.google/gmail_email/jsonschema/1-0-0\n"
      ≠ "iglu:" ++ "com.google" ++ "/" ++ "gmail_email" ++ "/jsonschema/"
          ++ "1-0-0" :=
  ⟨rfl, rfl, rfl, by decide, by decide⟩

/-- C8 (amended): for every schema reference string accepted by
`parse_iglu_ref`, the relative path produced by `schema_ref_to_path` has the
form `schemas/{vendor}/{name}/jsonschema/{version}.json`; the components are
recovered exactly from that path; they reconstruct the original reference
exactly up to one optional trailing newline (which Python `$` tolerates and
no capture group contains); and the reference-to-path mapping is injective
up to that trailing newline: two accepted references with the same path are
equal or differ only by one final newline. -/
theorem C8_ref_path_roundtrip (s v n ver : String)
    (h : parse_iglu_ref s = .ok (v, n, ver)) :
    schema_ref_to_path s
        = .ok ("schemas/" ++ v ++ "/" ++ n ++ "/jsonschema/" ++ ver ++ ".json")
    ∧ schema_path_components
        ("schemas/" ++ v ++ "/" ++ n ++ "/jsonschema/" ++ ver ++ ".json")
        = some (v, n, ver)
    ∧ (s = "iglu:" ++ v ++ "/" ++ n ++ "/jsonschema/" ++ ver
        ∨ s = "iglu:" ++ v ++ "/" ++ n ++ "/jsonschema/" ++ ver ++ "\n")
    ∧ (∀ s2 v2 n2 ver2, parse_iglu_ref s2 = .ok (v2, n2, ver2) →
        schema_ref_to_path s2 = schema_ref_to_path s →
        s2 = s ∨ s2 = s ++ "\n" ∨ s = s2 ++ "\n") := by
  have hpath : schema_ref_to_path s
      = .ok ("schemas/" ++ v ++ "/" ++ n ++ "/jsonschema/" ++ ver ++ ".json") := by
    unfold schema_ref_to_path
    rw [h]
    rfl
  refine ⟨hpath, schema_path_components_of_parse h, parse_iglu_ref_recon h, ?_⟩
  intro s2 v2 n2 ver2 h2 hp2
  have hpath2 : schema_ref_to_path s2
      = .ok ("schemas/" ++ v2 ++ "/" ++ n2 ++ "/jsonschema/" ++ ver2 ++ ".json") := by
    unfold schema_ref_to_path
    rw [h2]
    rfl
  rw [hpath2, hpath] at hp2
  have hpeq : ("schemas/" ++ v2 ++ "/" ++ n2 ++ "/jsonschema/" ++ ver2 ++ ".json")
      = ("schemas/" ++ v ++ "/" ++ n ++ "/jsonschema/" ++ ver ++ ".json") := by
    simpa using hp2
  have hc2 := schema_path_components_of_parse h2
  rw [hpeq, schema_path_components_of_parse h] at hc2
  have hcomp : v = v2 ∧ n = n2 ∧ ver = ver2 := by simpa using hc2
  obtain ⟨hveq, hneq, hvereq⟩ := hcomp
  have hr2 := parse_iglu_ref_recon h2
  rw [← hveq, ← hneq, ← hvereq] at hr2
  rcases parse_iglu_ref_recon h with hr | hr <;> rcases hr2 with hr2 | hr2
  · exact Or.inl (hr2.trans hr.symm)
  · exact Or.inr (Or.inl (by rw [hr2, hr]))
  · exact Or.inr (Or.inr (by rw [hr, hr2]))
  · exact Or.inl (hr2.trans hr.symm)

/-- Witness for C8 at a concrete schema reference. -/
theorem C8_ref_path_roundtrip_witness :
    schema_ref_to_path "iglu:com.google/gmail_email/jsonschema/1-0-0"
      = .ok ("schemas/" ++ "com.google" ++ "/" ++ "gmail_email" ++ "/jsonschema/"
          ++ "1-0-0" ++ ".json") :=
  (C8_ref_path_roundtrip "iglu:com.google/gmail_email/jsonschema/1-0-0"
    "com.google" "gmail_email" "1-0-0" (by rfl)).1

/-! ## Root resolution (src/canonizer/local/resolver.py, find_canonizer_root)

The filesystem is abstracted by exactly the facts the function consults: for
each directory, whether `dir/.canonizer` is a directory that contains
`config.yaml` (the marker test of lines 86-90 and 95-96); the current working
directory; and whether the global home `get_canonizer_home()` is a directory
containing `config.yaml` (line 104).  A directory is the list of its path
segments leaf-first (`[]` is the filesystem root, and the parent of
`seg :: rest` is `rest`); paths are taken as already resolved, so
`Path.resolve` is the identity. -/

/-- A directory path, as its segments leaf-first. -/
abbrev DirPath := List String

/-- The filesystem facts consulted by `find_canonizer_root`. -/
structure FileSystem where
  hasMarker : DirPath → Bool
  cwd : DirPath
  globalHome : DirPath
  globalHomeOk : Bool

/-- The upward walk of lines 84-92 (`while current != current.parent`)
together with the root check of lines 94-97: every directory from the start
up to and including the filesystem root is tested in order, and the first
`.canonizer` marker directory with a config file wins. -/
def walkUp (fs : FileSystem) : DirPath → Option DirPath
  | [] => if fs.hasMarker [] then some [".canonizer"] else none
  | seg :: parent =>
    if fs.hasMarker (seg :: parent) then some (".canonizer" :: seg :: parent)
    else walkUp fs parent

/-- `find_canonizer_root` (resolver.py lines 66-111).  The Python parameter
`start_path` is one variable that is reassigned at line 79 (`if start_path is
None: start_path = Path.cwd()`); it is modelled as the same `Option`-valued
binding rebound, so that the fallback test `if start_path is None` at line
102 reads the reassigned value.  The raised
`CanonizerRootNotFoundError` is the `.error ()` outcome (message elided). -/
def find_canonizer_root (fs : FileSystem) (start_path : Option DirPath) :
    Except Unit DirPath :=
  let start_path : Option DirPath :=
    match start_path with
    | none => some fs.cwd
    | some p => some p
  match walkUp fs (start_path.getD fs.cwd) with
  | some dir => .ok dir
  | none =>
    if start_path = none then
      if fs.globalHomeOk then .ok fs.globalHome
      else .error ()
    else .error ()

/-- C1: whenever no explicit start directory is supplied and the upward walk
finds no marker, `find_canonizer_root` raises `CanonizerRootNotFoundError`
for every filesystem — in particular also when the global home exists and
contains a configuration file, where the claim (and the comment at resolver.py
lines 99-101) says the global home is returned.  The fallback test at line 102
reads the variable reassigned at line 79 and can never be true. -/
theorem C1_dead_global_fallback (fs : FileSystem)
    (hwalk : walkUp fs fs.cwd = none) :
    find_canonizer_root fs none = .error () := by
  unfold find_canonizer_root
  simp only [Option.getD_some]
  rw [hwalk]
  simp

/-- Witness for C1: a filesystem with no marker anywhere but a global home
that does contain a configuration file; the resolver still errors. -/
theorem C1_dead_global_fallback_witness :
    walkUp
        { hasMarker := fun _ => false, cwd := ["user", "home"],
          globalHome := ["canonizer", ".config", "user", "home"],
          globalHomeOk := true } ["user", "home"] = none
    ∧ find_canonizer_root
        { hasMarker := fun _ => false, cwd := ["user", "home"],
          globalHome := ["canonizer", ".config", "user", "home"],
          globalHomeOk := true } none = .error () :=
  ⟨by decide,
   C1_dead_global_fallback
     { hasMarker := fun _ => false, cwd := ["user", "home"],
       globalHome := ["canonizer", ".config", "user", "home"],
       globalHomeOk := true } (by decide)⟩



/-! ## Schema differ (src/canonizer/core/differ.py)

A property-bag schema document is modelled by its `properties` map — an
insertion-ordered, duplicate-free association list from field name to the
declared `type` member, the only part of a property value the differ reads
(`old_value` / `new_value` record that same read value) — and its `required`
list.  The source iterates Python set differences / intersections of dict
keys, whose order is unspecified (hash-randomized); the embedding iterates
them in the underlying insertion order, a deterministic refinement the greedy
rename pass of the source depends on. -/

/-- The `ChangeType` enumeration. -/
inductive ChangeType where
  | ADD
  | RENAME
  | REMOVE
  | TYPE_CHANGE
  | COMPLEX
deriving Repr, DecidableEq

/-- A single schema change (`SchemaChange`). -/
structure SchemaChange where
  change_type : ChangeType
  path : String
  old_value : Option (Option String) := none
  new_value : Option (Option String) := none
  description : String
  auto_patchable : Bool
deriving Repr, DecidableEq

/-- A property-bag schema document: `properties` and `required`. -/
structure PBSchema where
  properties : List (String × Option String)
  required : List String
deriving Repr, DecidableEq

/-- The result of diffing (`SchemaDiff`); the path fields hold `<dict>` for
in-memory documents. -/
structure SchemaDiff where
  from_schema_path : String := "<dict>"
  to_schema_path : String := "<dict>"
  changes : List SchemaChange
  auto_patchable_count : Nat
  manual_review_count : Nat
deriving Repr, DecidableEq

/-- Python f-string rendering of a `.get("type")` result. -/
def pyShowOptStr : Option String → String
  | none => "None"
  | some s => s

/-- The keys of a properties map. -/
def propKeys (props : List (String × Option String)) : List String :=
  props.map Prod.fst

/-- `props[field].get("type")` for a field known to be present. -/
def propType (props : List (String × Option String)) (field : String) :
    Option String :=
  (props.lookup field).getD none

/-- `set(to_props) - set(from_props)` (differ.py line 103), iterated in the
insertion order of `to_props`. -/
def added_fields (fromS toS : PBSchema) : List String :=
  (propKeys toS.properties).filter
    (fun f => !((propKeys fromS.properties).contains f))

/-- `set(from_props) - set(to_props)` (differ.py line 117). -/
def removed_fields (fromS toS : PBSchema) : List String :=
  (propKeys fromS.properties).filter
    (fun f => !((propKeys toS.properties).contains f))

/-- `set(from_props) & set(to_props)` (differ.py line 131). -/
def common_fields (fromS toS : PBSchema) : List String :=
  (propKeys fromS.properties).filter
    (fun f => (propKeys toS.properties).contains f)

/-- The `ChangeType.ADD` entry built at differ.py lines 104-114. -/
def addChange (toS : PBSchema) (field : String) : SchemaChange :=
  let is_required := toS.required.contains field
  { change_type := .ADD, path := field, old_value := none,
    new_value := some (propType toS.properties field),
    description := "Added field \x27" ++ field ++ "\x27 ("
      ++ (if is_required then "required" else "optional") ++ ")",
    auto_patchable := !is_required }

/-- The `ChangeType.REMOVE` entry built at differ.py lines 117-128. -/
def removeChange (fromS : PBSchema) (field : String) : SchemaChange :=
  let was_required := fromS.required.contains field
  { change_type := .REMOVE, path := field,
    old_value := some (propType fromS.properties field), new_value := none,
    description := "Removed field \x27" ++ field ++ "\x27 ("
      ++ (if was_required then "required" else "optional") ++ ")",
    auto_patchable := false }

/-- The entries built for a common field at differ.py lines 132-165: a
`TYPE_CHANGE` when the declared types differ, then a required-status change
(`TYPE_CHANGE` for optional→required, `COMPLEX` for required→optional). -/
def commonChange (fromS toS : PBSchema) (field : String) : List SchemaChange :=
  let from_type := propType fromS.properties field
  let to_type := propType toS.properties field
  let was_required := fromS.required.contains field
  let is_required := toS.required.contains field
  (if from_type ≠ to_type then
    [{ change_type := .TYPE_CHANGE, path := field, old_value := some from_type,
       new_value := some to_type,
       description := "Type changed for \x27" ++ field ++ "\x27: "
         ++ pyShowOptStr from_type ++ " → " ++ pyShowOptStr to_type,
       auto_patchable := false }]
   else [])
  ++ (if was_required ≠ is_required then
    [{ change_type := if is_required then .TYPE_CHANGE else .COMPLEX,
       path := field, old_value := some from_type, new_value := some to_type,
       description := "Field \x27" ++ field ++ "\x27 changed: "
         ++ (if was_required then "required → optional"
             else "optional → required"),
       auto_patchable := false }]
   else [])

/-- The change list of differ.py lines 100-165, before rename inference. -/
def diff_changes_before_rename (fromS toS : PBSchema) : List SchemaChange :=
  (added_fields fromS toS).map (addChange toS)
    ++ (removed_fields fromS toS).map (removeChange fromS)
    ++ (common_fields fromS toS).flatMap (commonChange fromS toS)

/-- The inner dynamic-programming row of `_levenshtein_distance`
(differ.py lines 230-238): `cur` is the last value appended to the current
row, `prevj` walks the previous row. -/
def levInner (c1 : Char) : List Char → List Nat → Nat → List Nat
  | [], _, _ => []
  | c2 :: rest, prevj :: prevrest, cur =>
    let insertions := prevrest.headD 0 + 1
    let deletions := cur + 1
    let substitutions := prevj + (if c1 = c2 then 0 else 1)
    let v := min insertions (min deletions substitutions)
    v :: levInner c1 rest prevrest v
  | _ :: _, [], _ => []

/-- The row loop of `_levenshtein_distance`: `previous_row` starts as
`range(len(s2) + 1)` and each character of `s1` produces a new row starting
with `i + 1`. -/
def levCore (s1 s2 : List Char) : Nat :=
  if s2.length = 0 then s1.length
  else
    ((s1.foldl (fun (acc : List Nat × Nat) c1 =>
        ((acc.2 + 1) :: levInner c1 s2 acc.1 (acc.2 + 1), acc.2 + 1))
      (List.range (s2.length + 1), 0)).1).getLastD 0

/-- `_levenshtein_distance` (differ.py lines 217-240): swap so the first
string is the longer one, then run the single-row DP. -/
def _levenshtein_distance (s1 s2 : String) : Nat :=
  if s1.length < s2.length then levCore s2.data s1.data
  else levCore s1.data s2.data

/-- Python substring containment `needle in hay`. -/
def substrIn (needle : List Char) : List Char → Bool
  | [] => needle.isEmpty
  | c :: rest => needle.isPrefixOf (c :: rest) || substrIn needle rest

/-- The name-similarity test of differ.py lines 172-176:
`removed.lower() in added.lower() or added.lower() in removed.lower()`
(substring containment) `or _levenshtein_distance(removed, added) <= 3`. -/
def namesSimilar (removed added : String) : Bool :=
  substrIn (removed.data.map Char.toLower) (added.data.map Char.toLower)
    || substrIn (added.data.map Char.toLower) (removed.data.map Char.toLower)
    || _levenshtein_distance removed added ≤ 3

/-- The full merge condition for a (removed, added) pair: similar names and
equal declared types (differ.py lines 172-181). -/
def renameMatch (fromS toS : PBSchema) (removed added : String) : Bool :=
  namesSimilar removed added
    && (propType fromS.properties removed == propType toS.properties added)

/-- The `ChangeType.RENAME` entry built at differ.py lines 193-200. -/
def renameChange (fromS toS : PBSchema) (removed added : String) :
    SchemaChange :=
  { change_type := .RENAME, path := removed ++ "→" ++ added,
    old_value := some (propType fromS.properties removed),
    new_value := some (propType toS.properties added),
    description := "Field renamed: \x27" ++ removed ++ "\x27 → \x27"
      ++ added ++ "\x27",
    auto_patchable := true }

/-- The rename-inference pass (differ.py lines 169-202): for each removed
field take the first added field satisfying the merge condition (the `break`
is inside the type-equality test, so a similar pair with different types does
not stop the scan), delete the standalone `ADD` / `REMOVE` entries of the
pair and append a `RENAME` entry. -/
def renamePass (fromS toS : PBSchema) (changes : List SchemaChange) :
    List SchemaChange :=
  (removed_fields fromS toS).foldl (fun chs removed =>
    match (added_fields fromS toS).find? (renameMatch fromS toS removed) with
    | some added =>
      (chs.filter (fun c =>
          !((c.change_type == ChangeType.ADD && c.path == added)
            || (c.change_type == ChangeType.REMOVE && c.path == removed))))
        ++ [renameChange fromS toS removed added]
    | none => chs) changes

/-- `SchemaDiffer.diff_schemas` (differ.py lines 62-214) for in-memory
documents: classify changes, run rename inference, then partition the final
list by the `auto_patchable` flag. -/
def diff_schemas (fromS toS : PBSchema) : SchemaDiff :=
  let changes := renamePass fromS toS (diff_changes_before_rename fromS toS)
  let auto := (changes.filter (fun c => c.auto_patchable)).length
  { changes := changes, auto_patchable_count := auto,
    manual_review_count := changes.length - auto }



/-- Entries built for common fields are only `TYPE_CHANGE` or `COMPLEX`. -/
theorem commonChange_types {fromS toS : PBSchema} {f : String}
    {c : SchemaChange} (hc : c ∈ commonChange fromS toS f) :
    c.change_type = ChangeType.TYPE_CHANGE
      ∨ c.change_type = ChangeType.COMPLEX := by
  unfold commonChange at hc
  rcases List.mem_append.mp hc with h | h
  · split at h
    · rw [List.mem_singleton] at h
      subst h
      exact Or.inl rfl
    · simp at h
  · split at h
    · rw [List.mem_singleton] at h
      subst h
      dsimp only
      split
      · exact Or.inl rfl
      · exact Or.inr rfl
    · simp at h

/-- C3 counterexample: with `from = {aa: string}` and
`to = {cc: string, dd: string}` the pair `(aa, dd)` satisfies the merge
condition (edit distance 2, equal declared types), yet the diff keeps a
standalone `Add` entry for `dd` and emits no `Rename` for the pair: the
greedy pass merges `aa` with the first candidate `cc` only. -/
theorem C3_counterexample :
    renameMatch ⟨[("aa", some "string")], []⟩
        ⟨[("cc", some "string"), ("dd", some "string")], []⟩ "aa" "dd" = true
    ∧ "aa" ∈ removed_fields ⟨[("aa", some "string")], []⟩
        ⟨[("cc", some "string"), ("dd", some "string")], []⟩
    ∧ "dd" ∈ added_fields ⟨[("aa", some "string")], []⟩
        ⟨[("cc", some "string"), ("dd", some "string")], []⟩
    ∧ (diff_schemas ⟨[("aa", some "string")], []⟩
        ⟨[("cc", some "string"), ("dd", some "string")], []⟩).changes.any
          (fun c => c.change_type == ChangeType.ADD && c.path == "dd") = true
    ∧ (diff_schemas ⟨[("aa", some "string")], []⟩
        ⟨[("cc", some "string"), ("dd", some "string")], []⟩).changes.any
          (fun c => c.change_type == ChangeType.RENAME) = true
    ∧ (diff_schemas ⟨[("aa", some "string")], []⟩
        ⟨[("cc", some "string"), ("dd", some "string")], []⟩).changes.all
          (fun c => !(c.change_type == ChangeType.RENAME
            && c.path == "aa→dd")) = true := by
  decide

/-- C3 (amended): when exactly one field is removed and exactly one field is
added and the pair satisfies the merge condition (case-insensitive substring
or edit distance at most 3, and equal declared types), the diff deletes the
standalone `Add` and `Remove` entries and emits the single auto-patchable
`Rename` in their place after the common-field changes, and no `Add` or
`Remove` entry remains.  (With several matching candidates the pass is
greedy: only the first matching added field is merged per removed field, and
later matching pairs keep their standalone entries.) -/
theorem C3_rename_merge (fromS toS : PBSchema) (r a : String)
    (hrem : removed_fields fromS toS = [r])
    (hadd : added_fields fromS toS = [a])
    (hmatch : renameMatch fromS toS r a = true) :
    (diff_schemas fromS toS).changes
      = (common_fields fromS toS).flatMap (commonChange fromS toS)
          ++ [renameChange fromS toS r a]
    ∧ ∀ c ∈ (diff_schemas fromS toS).changes,
        c.change_type ≠ ChangeType.ADD
          ∧ c.change_type ≠ ChangeType.REMOVE := by
  have hcommon : ∀ c ∈ (common_fields fromS toS).flatMap (commonChange fromS toS),
      (!((c.change_type == ChangeType.ADD && c.path == a)
        || (c.change_type == ChangeType.REMOVE && c.path == r))) = true := by
    intro c hc
    obtain ⟨f, hf, hcf⟩ := List.mem_flatMap.mp hc
    rcases commonChange_types hcf with hct | hct <;> rw [hct] <;> rfl
  have hmain : (diff_schemas fromS toS).changes
      = (common_fields fromS toS).flatMap (commonChange fromS toS)
          ++ [renameChange fromS toS r a] := by
    unfold diff_schemas renamePass diff_changes_before_rename
    rw [hrem, hadd]
    simp only [List.map_cons, List.map_nil, List.foldl_cons, List.foldl_nil,
      List.find?_cons, hmatch]
    rw [List.filter_append, List.filter_append]
    have h1 : ([addChange toS a]).filter (fun c =>
        !((c.change_type == ChangeType.ADD && c.path == a)
          || (c.change_type == ChangeType.REMOVE && c.path == r))) = [] := by
      simp [addChange, List.filter]
    have h2 : ([removeChange fromS r]).filter (fun c =>
        !((c.change_type == ChangeType.ADD && c.path == a)
          || (c.change_type == ChangeType.REMOVE && c.path == r))) = [] := by
      simp [removeChange, List.filter]
    have h3 : ((common_fields fromS toS).flatMap
        (commonChange fromS toS)).filter (fun c =>
        !((c.change_type == ChangeType.ADD && c.path == a)
          || (c.change_type == ChangeType.REMOVE && c.path == r)))
        = (common_fields fromS toS).flatMap (commonChange fromS toS) :=
      List.filter_eq_self.mpr hcommon
    rw [h1, h2, h3, List.nil_append, List.nil_append]
  refine ⟨hmain, ?_⟩
  intro c hc
  rw [hmain] at hc
  rcases List.mem_append.mp hc with h | h
  · obtain ⟨f, hf, hcf⟩ := List.mem_flatMap.mp h
    rcases commonChange_types hcf with hct | hct <;> rw [hct] <;>
      exact ⟨ChangeType.noConfusion, ChangeType.noConfusion⟩
  · rw [List.mem_singleton] at h
    subst h
    exact ⟨ChangeType.noConfusion, ChangeType.noConfusion⟩

/-- Witness for C3: the example of the spec, `{user_name: string}` diffed
against `{username: string}`, yields exactly one auto-patchable rename and
nothing else. -/
theorem C3_rename_merge_witness :
    (diff_schemas ⟨[("user_name", some "string")], []⟩
        ⟨[("username", some "string")], []⟩).changes
      = [renameChange ⟨[("user_name", some "string")], []⟩
          ⟨[("username", some "string")], []⟩ "user_name" "username"] := by
  have h := C3_rename_merge ⟨[("user_name", some "string")], []⟩
    ⟨[("username", some "string")], []⟩ "user_name" "username"
    (by decide) (by decide) (by decide)
  rw [h.1]
  rfl



/-! ## Transform patcher (src/canonizer/core/patcher.py)

`TransformPatcher.patch_transform` receives the path of a transform sidecar;
`TransformLoader.load` reads and pydantic-validates the sidecar and the body
file from disk.  The embedding takes the outcome of that load directly: a
`Transform` carrying the metadata version and the JSONata body text — the
only parts patching reads — or the exception message.  `loadTransform`
models the version-pattern validation `TransformMeta` performs at
construction; file-system failures (missing files, checksum mismatch, bad
YAML) are further `Except.error` outcomes a caller may pass for the load
argument. -/

/-- Transform metadata, restricted to the `version` field — the only field
`patch_transform` reads (transform_meta.py lines 65-69). -/
structure TransformMeta where
  version : String
deriving Repr, DecidableEq

/-- A loaded transform: metadata plus JSONata source (loader.py lines
11-17). -/
structure Transform where
  meta : TransformMeta
  jsonata : String
deriving Repr, DecidableEq

/-- The pydantic pattern `^\d+\.\d+\.\d+$` on `TransformMeta.version`
(ASCII digits): splitting at `.` yields exactly three nonempty all-digit
groups. -/
def versionPatternOk (s : String) : Bool :=
  match splitOnChar '.' s.data with
  | [a, b, c] =>
    !a.isEmpty && a.all isAsciiDigit && !b.isEmpty && b.all isAsciiDigit
      && !c.isEmpty && c.all isAsciiDigit
  | _ => false

/-- `TransformLoader.load` (loader.py lines 24-71) restricted to the facts
patching consumes: metadata construction validates the version pattern and
raises a pydantic `ValidationError` otherwise; the body text is returned
alongside. -/
def loadTransform (rawVersion jsonata : String) : Except String Transform :=
  if versionPatternOk rawVersion then .ok ⟨⟨rawVersion⟩, jsonata⟩
  else .error ("1 validation error for TransformMeta: version String should match pattern")

/-- `PatchResult` (patcher.py lines 12-20). -/
structure PatchResult where
  success : Bool
  updated_jsonata : Option String
  updated_meta : Option TransformMeta
  applied_changes : List SchemaChange
  skipped_changes : List SchemaChange
  error : Option String
deriving Repr, DecidableEq

/-- `str.rfind` for a single character: the index of its last occurrence. -/
def lastIndexOf (l : List Char) (c : Char) : Option Nat :=
  match l with
  | [] => none
  | x :: rest =>
    match lastIndexOf rest c with
    | some i => some (i + 1)
    | none => if x == c then some 0 else none

/-- `TransformPatcher._apply_add` (patcher.py lines 120-154): succeed only
when the stripped body starts with `{` and ends with `}`; insert the quoted
field with a `null` value before the last closing brace, with a leading comma
unless the right-trimmed text before that brace ends with `{`. -/
def _apply_add (jsonata : String) (change : SchemaChange) : Option String :=
  let field_name := change.path
  let stripped := pyStrip jsonata.data
  if stripped.head? == some '{' && stripped.getLast? == some '}' then
    match lastIndexOf stripped '}' with
    | none => none
    | some last_brace_idx =>
      let before_brace := pyRStrip (stripped.take last_brace_idx)
      let new_field : List Char :=
        if before_brace.getLast? == some '{' then
          ("  \x22" ++ field_name ++ "\x22: null").data
        else (",\n  \x22" ++ field_name ++ "\x22: null").data
      some (String.mk (stripped.take last_brace_idx ++ new_field
        ++ '\n' :: stripped.drop last_brace_idx))
  else none

/-- Match `old` at the front of `l` and return the remainder. -/
def stripPrefixChars : List Char → List Char → Option (List Char)
  | [], l => some l
  | _ :: _, [] => none
  | p :: ps, c :: cs => if c == p then stripPrefixChars ps cs else none

/-- Try to match the regex `{q}{old}{q}(\s*):` at the head of `l`; on success
return the whitespace run captured by `\s*` and the text after the colon. -/
def tryMatchKey (q : Char) (old : List Char) (l : List Char) :
    Option (List Char × List Char) :=
  match l with
  | [] => none
  | c :: rest =>
    if c == q then
      match stripPrefixChars old rest with
      | none => none
      | some r1 =>
        match r1 with
        | [] => none
        | c2 :: r2 =>
          if c2 == q then
            match r2.dropWhile isPySpace with
            | ':' :: r3 => some (r2.takeWhile isPySpace, r3)
            | _ => none
          else none
    else none

/-- `re.sub` of the quoted-key pattern, scanning left to right without
overlap; the fuel dominates the scanned length, so the run never exhausts
it. -/
def subQuotedKeyAux (q : Char) (old newName : List Char) :
    Nat → List Char → List Char
  | 0, l => l
  | _ + 1, [] => []
  | fuel + 1, c :: rest =>
    match tryMatchKey q old (c :: rest) with
    | some (ws, rem) =>
      q :: (newName ++ q :: (ws ++ ':' :: subQuotedKeyAux q old newName fuel rem))
    | none => c :: subQuotedKeyAux q old newName fuel rest

/-- `TransformPatcher._apply_rename` (patcher.py lines 156-183): split the
change path at `→`; substitute the old name as a double-quoted and then a
single-quoted object key; report failure when nothing changed. -/
def _apply_rename (jsonata : String) (change : SchemaChange) : Option String :=
  match splitOnChar '→' change.path.data with
  | [oldName, newName] =>
    let s1 := subQuotedKeyAux '\x22' oldName newName jsonata.data.length jsonata.data
    let s2 := subQuotedKeyAux '\x27' oldName newName s1.length s1
    if s2 == jsonata.data then none else some (String.mk s2)
  | _ => none

mutual
/-- Value of a base-10 digit/underscore run (Python `int`), continuing an
accumulated value. -/
def decTailVal : Nat → List Char → Option Nat
  | acc, [] => some acc
  | acc, c :: rest =>
    if c == '_' then decAfterUnderscoreVal acc rest
    else if isAsciiDigit c then decTailVal (acc * 10 + (c.toNat - 48)) rest
    else none

/-- After an underscore a digit must follow immediately. -/
def decAfterUnderscoreVal : Nat → List Char → Option Nat
  | _, [] => none
  | acc, d :: rest =>
    if isAsciiDigit d then decTailVal (acc * 10 + (d.toNat - 48)) rest
    else none
end

/-- At least one digit, underscores only between digits. -/
def decDigitsVal? : List Char → Option Nat
  | [] => none
  | c :: rest =>
    if isAsciiDigit c then decTailVal (c.toNat - 48) rest else none

/-- Python `int(s)` in base 10: optional surrounding whitespace, optional
sign, digits with single embedded underscores; `none` when `ValueError` is
raised. -/
def pyIntDec? (l : List Char) : Option Int :=
  match pyStrip l with
  | [] => none
  | c :: r =>
    if c == '+' then (decDigitsVal? r).map Int.ofNat
    else if c == '-' then (decDigitsVal? r).map (fun n => -(n : Int))
    else (decDigitsVal? (c :: r)).map Int.ofNat

/-- Decimal digits of a natural number (fuel-bounded division loop). -/
def natToCharsAux : Nat → Nat → List Char
  | 0, _ => []
  | fuel + 1, n =>
    if n < 10 then [Char.ofNat (48 + n)]
    else natToCharsAux fuel (n / 10) ++ [Char.ofNat (48 + n % 10)]

/-- Python `str` of an integer. -/
def intToChars (i : Int) : List Char :=
  if i < 0 then '-' :: natToCharsAux ((-i).toNat + 1) (-i).toNat
  else natToCharsAux (i.toNat + 1) i.toNat

/-- `TransformPatcher._bump_version` (patcher.py lines 185-211): split the
version at `.`, raise on any count other than three, increment the middle
component with Python `int` (which raises on a non-numeric part) and rebuild
`{model}.{new_revision}.0`. -/
def _bump_version (meta : TransformMeta) : Except String TransformMeta :=
  match splitOnChar '.' meta.version.data with
  | [model, revision, _] =>
    match pyIntDec? revision with
    | none => .error ("invalid literal for int() with base 10: "
        ++ String.mk revision)
    | some revVal =>
      .ok ⟨String.mk (model ++ '.' :: intToChars (revVal + 1) ++ ['.', '0'])⟩
  | _ => .error ("Invalid version format: " ++ meta.version)

/-- The per-change loop of `patch_transform` (patcher.py lines 59-83),
carrying the evolving body text and accumulating applied and skipped changes
in iteration order. -/
def patchLoop : String → List SchemaChange →
    String × List SchemaChange × List SchemaChange
  | js, [] => (js, [], [])
  | js, c :: rest =>
    if !c.auto_patchable then
      let r := patchLoop js rest
      (r.1, r.2.1, c :: r.2.2)
    else
      match c.change_type with
      | ChangeType.ADD =>
        match _apply_add js c with
        | some js2 => let r := patchLoop js2 rest; (r.1, c :: r.2.1, r.2.2)
        | none => let r := patchLoop js rest; (r.1, r.2.1, c :: r.2.2)
      | ChangeType.RENAME =>
        match _apply_rename js c with
        | some js2 => let r := patchLoop js2 rest; (r.1, c :: r.2.1, r.2.2)
        | none => let r := patchLoop js rest; (r.1, r.2.1, c :: r.2.2)
      | _ =>
        let r := patchLoop js rest
        (r.1, r.2.1, c :: r.2.2)

/-- `TransformPatcher.patch_transform` (patcher.py lines 33-118) over the
outcome of the load: the whole body runs inside `try`, and `except
Exception` converts any raised error — from loading or from the version bump
— into an in-band `PatchResult` with the full change list skipped. -/
def patch_transform (load : Except String Transform)
    (schema_diff : SchemaDiff) (bump_version : Bool := true) : PatchResult :=
  match load with
  | .error e =>
    { success := false, updated_jsonata := none, updated_meta := none,
      applied_changes := [], skipped_changes := schema_diff.changes,
      error := some e }
  | .ok transform =>
    let r := patchLoop transform.jsonata schema_diff.changes
    if r.2.1 = [] then
      { success := false, updated_jsonata := none, updated_meta := none,
        applied_changes := [], skipped_changes := r.2.2,
        error := some "No auto-patchable changes found" }
    else
      match (if bump_version then _bump_version transform.meta
             else .ok transform.meta) with
      | .ok updated_meta =>
        { success := true, updated_jsonata := some r.1,
          updated_meta := some updated_meta, applied_changes := r.2.1,
          skipped_changes := r.2.2, error := none }
      | .error e =>
        { success := false, updated_jsonata := none, updated_meta := none,
          applied_changes := [], skipped_changes := schema_diff.changes,
          error := some e }



/-! ### Patch loop lemmas -/

theorem perm_skip_step {a s rest : List SchemaChange} {c : SchemaChange}
    (h : (a ++ s).Perm rest) : (a ++ c :: s).Perm (c :: rest) :=
  List.perm_middle.trans (h.cons c)

theorem perm_apply_step {a s rest : List SchemaChange} {c : SchemaChange}
    (h : (a ++ s).Perm rest) : ((c :: a) ++ s).Perm (c :: rest) := by
  simpa using h.cons c

/-- One step of the loop either applies the head change (consing it onto the
applied list) or skips it (consing it onto the skipped list); in both cases
the rest of the loop runs on some body text. -/
theorem patchLoop_cons_cases (js : String) (c : SchemaChange)
    (rest : List SchemaChange) :
    ∃ js2,
      patchLoop js (c :: rest)
          = ((patchLoop js2 rest).1, c :: (patchLoop js2 rest).2.1,
             (patchLoop js2 rest).2.2)
      ∨ patchLoop js (c :: rest)
          = ((patchLoop js2 rest).1, (patchLoop js2 rest).2.1,
             c :: (patchLoop js2 rest).2.2) := by
  by_cases hauto : c.auto_patchable
  · cases hct : c.change_type with
    | ADD =>
      cases happ : _apply_add js c with
      | some js2 => exact ⟨js2, Or.inl (by simp [patchLoop, hauto, hct, happ])⟩
      | none => exact ⟨js, Or.inr (by simp [patchLoop, hauto, hct, happ])⟩
    | RENAME =>
      cases happ : _apply_rename js c with
      | some js2 => exact ⟨js2, Or.inl (by simp [patchLoop, hauto, hct, happ])⟩
      | none => exact ⟨js, Or.inr (by simp [patchLoop, hauto, hct, happ])⟩
    | REMOVE => exact ⟨js, Or.inr (by simp [patchLoop, hauto, hct])⟩
    | TYPE_CHANGE => exact ⟨js, Or.inr (by simp [patchLoop, hauto, hct])⟩
    | COMPLEX => exact ⟨js, Or.inr (by simp [patchLoop, hauto, hct])⟩
  · have hfalse : c.auto_patchable = false := by
      cases hx : c.auto_patchable
      · rfl
      · exact absurd hx hauto
    exact ⟨js, Or.inr (by simp [patchLoop, hfalse])⟩

/-- Applied and skipped changes together are a permutation of the input. -/
theorem patchLoop_perm :
    ∀ (l : List SchemaChange) (js : String),
      ((patchLoop js l).2.1 ++ (patchLoop js l).2.2).Perm l := by
  intro l
  induction l with
  | nil => intro js; simp [patchLoop]
  | cons c rest ih =>
    intro js
    obtain ⟨js2, h | h⟩ := patchLoop_cons_cases js c rest
    · rw [h]; exact perm_apply_step (ih js2)
    · rw [h]; exact perm_skip_step (ih js2)

/-- When nothing is applied, every change is skipped, in order. -/
theorem patchLoop_applied_nil :
    ∀ (l : List SchemaChange) (js : String),
      (patchLoop js l).2.1 = [] → (patchLoop js l).2.2 = l := by
  intro l
  induction l with
  | nil => intro js _; simp [patchLoop]
  | cons c rest ih =>
    intro js h
    obtain ⟨js2, hcase | hcase⟩ := patchLoop_cons_cases js c rest
    · rw [hcase] at h
      simp at h
    · rw [hcase] at h ⊢
      dsimp only at h ⊢
      rw [ih js2 h]

/-- C10: for every load outcome and diff, `patch_transform` partitions the
input change list — applied plus skipped changes are a permutation of the
diff changes — and when loading (or patching) raises internally the applied
list is empty and the skipped list is the entire input change list. -/
theorem C10_patch_partition (load : Except String Transform)
    (schema_diff : SchemaDiff) (b : Bool) :
    ((patch_transform load schema_diff b).applied_changes
        ++ (patch_transform load schema_diff b).skipped_changes).Perm
          schema_diff.changes
    ∧ (∀ e, load = .error e →
        (patch_transform load schema_diff b).applied_changes = []
          ∧ (patch_transform load schema_diff b).skipped_changes
              = schema_diff.changes) := by
  cases load with
  | error e =>
    exact ⟨by simp [patch_transform], fun e2 _ => by simp [patch_transform]⟩
  | ok t =>
    refine ⟨?_, fun e2 he => Except.noConfusion he⟩
    unfold patch_transform
    dsimp only
    by_cases hnil : (patchLoop t.jsonata schema_diff.changes).2.1 = []
    · rw [if_pos hnil]
      dsimp only
      have hp := patchLoop_perm schema_diff.changes t.jsonata
      rw [hnil] at hp
      simpa using hp
    · rw [if_neg hnil]
      cases hbv : (if b then _bump_version t.meta else .ok t.meta) with
      | ok m =>
        dsimp only
        exact patchLoop_perm schema_diff.changes t.jsonata
      | error e2 => simp

/-- Witness for C10: a failed load leaves the whole (non-empty) change list
skipped and nothing applied. -/
theorem C10_patch_partition_witness :
    (patch_transform (.error "boom")
        { changes := [{ change_type := ChangeType.REMOVE, path := "x",
                        description := "", auto_patchable := false }],
          auto_patchable_count := 0, manual_review_count := 1 }
        true).applied_changes = []
    ∧ (patch_transform (.error "boom")
        { changes := [{ change_type := ChangeType.REMOVE, path := "x",
                        description := "", auto_patchable := false }],
          auto_patchable_count := 0, manual_review_count := 1 }
        true).skipped_changes
      = [{ change_type := ChangeType.REMOVE, path := "x",
           description := "", auto_patchable := false }] :=
  (C10_patch_partition (.error "boom")
    { changes := [{ change_type := ChangeType.REMOVE, path := "x",
                    description := "", auto_patchable := false }],
      auto_patchable_count := 0, manual_review_count := 1 } true).2 "boom" rfl

/-- C2 counterexample: a transform whose version string `1.0` is not three
dot-separated integers, patched with a diff holding one applicable
auto-patchable `Add`, makes `patch_transform` return — not raise — a
`PatchResult` that reports the load failure in-band. -/
theorem C2_counterexample :
    patch_transform (loadTransform "1.0" "{}")
        { changes := [{ change_type := ChangeType.ADD, path := "email",
                        description := "", auto_patchable := true }],
          auto_patchable_count := 1, manual_review_count := 0 } true
      = { success := false, updated_jsonata := none, updated_meta := none,
          applied_changes := [],
          skipped_changes := [{ change_type := ChangeType.ADD, path := "email",
                                description := "", auto_patchable := true }],
          error := some "1 validation error for TransformMeta: version String should match pattern" } := by
  decide

/-- C2 (amended): `patch_transform` never raises; for every transform whose
metadata version string fails the three-dot-separated-integers pattern,
loading fails inside the `try` and the failure is reported in-band: the
returned `PatchResult` has `success = false`, no updated body or metadata,
an empty applied list, the entire input change list skipped, and the load
error message. -/
theorem C2_load_error_in_band (rawVersion jsonata : String)
    (schema_diff : SchemaDiff) (b : Bool)
    (h : versionPatternOk rawVersion = false) :
    patch_transform (loadTransform rawVersion jsonata) schema_diff b
      = { success := false, updated_jsonata := none, updated_meta := none,
          applied_changes := [], skipped_changes := schema_diff.changes,
          error := some "1 validation error for TransformMeta: version String should match pattern" } := by
  unfold loadTransform
  rw [if_neg (by simp [h])]
  rfl

/-- Witness for C2: the amended statement at the concrete version `1.0`. -/
theorem C2_load_error_in_band_witness :
    patch_transform (loadTransform "1.0" "body")
        { changes := [], auto_patchable_count := 0, manual_review_count := 0 }
        true
      = { success := false, updated_jsonata := none, updated_meta := none,
          applied_changes := [], skipped_changes := [],
          error := some "1 validation error for TransformMeta: version String should match pattern" } :=
  C2_load_error_in_band "1.0" "body"
    { changes := [], auto_patchable_count := 0, manual_review_count := 0 }
    true (by decide)



/-! ### Version bump lemmas -/

theorem isLowerHexDigit_of_digit {c : Char} (h : isAsciiDigit c = true) :
    isLowerHexDigit c = true := by
  unfold isLowerHexDigit
  rw [h]
  rfl

theorem decTailVal_digits :
    ∀ (r : List Char), (∀ c ∈ r, isAsciiDigit c = true) →
      ∀ acc, ∃ v, decTailVal acc r = some v := by
  intro r
  induction r with
  | nil => intro _ acc; exact ⟨acc, rfl⟩
  | cons c rest ih =>
    intro h acc
    have hc : isAsciiDigit c = true := h c (List.mem_cons_self c rest)
    have hne : (c == '_') = false :=
      beq_eq_false_of_pred hc (by decide)
    obtain ⟨v, hv⟩ := ih (fun d hd => h d (List.mem_cons_of_mem c hd))
      (acc * 10 + (c.toNat - 48))
    exact ⟨v, by simp [decTailVal, hne, hc, hv]⟩

theorem pyIntDec_digits {l : List Char} (hne : l ≠ [])
    (h : ∀ c ∈ l, isAsciiDigit c = true) :
    ∃ v : Nat, pyIntDec? l = some (Int.ofNat v) := by
  have hstrip : pyStrip l = l :=
    pyStrip_eq_self (fun c hc =>
      isPySpace_eq_false_of_hex (isHexDigitPy_of_lower
        (isLowerHexDigit_of_digit (h c hc))))
  unfold pyIntDec?
  rw [hstrip]
  cases l with
  | nil => exact absurd rfl hne
  | cons c r =>
    have hc : isAsciiDigit c = true := h c (List.mem_cons_self c r)
    have hp : (c == '+') = false := beq_eq_false_of_pred hc (by decide)
    have hm : (c == '-') = false := beq_eq_false_of_pred hc (by decide)
    obtain ⟨v, hv⟩ := decTailVal_digits r
      (fun d hd => h d (List.mem_cons_of_mem c hd)) (c.toNat - 48)
    exact ⟨v, by simp [hp, hm, decDigitsVal?, hc, hv]⟩

theorem versionPatternOk_parts {s : String} (h : versionPatternOk s = true) :
    ∃ a b c, splitOnChar '.' s.data = [a, b, c]
      ∧ a ≠ [] ∧ a.all isAsciiDigit = true
      ∧ b ≠ [] ∧ b.all isAsciiDigit = true
      ∧ c ≠ [] ∧ c.all isAsciiDigit = true := by
  unfold versionPatternOk at h
  split at h
  case _ a b c heq =>
    simp only [Bool.and_eq_true] at h
    obtain ⟨⟨⟨⟨⟨h1, h2⟩, h3⟩, h4⟩, h5⟩, h6⟩ := h
    have ne : ∀ (l : List Char), (!l.isEmpty) = true → l ≠ [] := by
      intro l hl hnil
      subst hnil
      simp at hl
    exact ⟨a, b, c, heq, ne a h1, h2, ne b h3, h4, ne c h5, h6⟩
  case _ => exact absurd h (by simp)

theorem bump_of_patternOk {v : String} (h : versionPatternOk v = true) :
    ∃ (a b c : List Char) (n : Nat),
      splitOnChar '.' v.data = [a, b, c]
      ∧ pyIntDec? b = some (Int.ofNat n)
      ∧ _bump_version ⟨v⟩
          = .ok ⟨String.mk (a ++ '.' :: intToChars (Int.ofNat n + 1)
              ++ ['.', '0'])⟩ := by
  obtain ⟨a, b, c, heq, _, _, hb0, hball, _, _⟩ := versionPatternOk_parts h
  obtain ⟨n, hn⟩ := pyIntDec_digits hb0 (List.all_eq_true.mp hball)
  refine ⟨a, b, c, n, heq, hn, ?_⟩
  unfold _bump_version
  dsimp only
  rw [heq]
  dsimp only
  rw [hn]

/-- C6: for every loadable transform, whenever no change ends up applied
(every change skipped, including a diff of only `Remove` / `TypeChange`
entries and the empty diff), `patch_transform` returns `success = false`, an
empty applied list, the entire input change list skipped, and the fixed
error message `No auto-patchable changes found`, even for a non-empty
diff. -/
theorem C6_all_skipped_failure (rawVersion jsonata : String)
    (schema_diff : SchemaDiff) (b : Bool)
    (hload : versionPatternOk rawVersion = true)
    (h : (patch_transform (loadTransform rawVersion jsonata)
        schema_diff b).applied_changes = []) :
    patch_transform (loadTransform rawVersion jsonata) schema_diff b
      = { success := false, updated_jsonata := none, updated_meta := none,
          applied_changes := [], skipped_changes := schema_diff.changes,
          error := some "No auto-patchable changes found" } := by
  have hloadok : loadTransform rawVersion jsonata
      = .ok ⟨⟨rawVersion⟩, jsonata⟩ := by
    unfold loadTransform
    rw [if_pos hload]
  rw [hloadok] at h ⊢
  unfold patch_transform at h ⊢
  dsimp only at h ⊢
  by_cases hnil : (patchLoop jsonata schema_diff.changes).2.1 = []
  · rw [if_pos hnil]
    rw [patchLoop_applied_nil _ _ hnil]
  · rw [if_neg hnil] at h
    obtain ⟨a, b2, c2, n, heq, hn, hbump⟩ := bump_of_patternOk hload
    cases b with
    | true =>
      rw [if_pos rfl, hbump] at h
      exact absurd h hnil
    | false =>
      rw [if_neg (by simp)] at h
      exact absurd h hnil

/-- Witness for C6: a loadable transform and a diff holding one `Remove`
change; the result is the fixed failure with the change skipped. -/
theorem C6_all_skipped_failure_witness :
    patch_transform (loadTransform "1.0.0" "{}")
        { changes := [{ change_type := ChangeType.REMOVE, path := "x",
                        description := "", auto_patchable := false }],
          auto_patchable_count := 0, manual_review_count := 1 } true
      = { success := false, updated_jsonata := none, updated_meta := none,
          applied_changes := [],
          skipped_changes := [{ change_type := ChangeType.REMOVE, path := "x",
                                description := "", auto_patchable := false }],
          error := some "No auto-patchable changes found" } :=
  C6_all_skipped_failure "1.0.0" "{}"
    { changes := [{ change_type := ChangeType.REMOVE, path := "x",
                    description := "", auto_patchable := false }],
      auto_patchable_count := 0, manual_review_count := 1 } true
    (by decide) (by decide)

/-- C5: whenever `patch_transform` succeeds with version bumping enabled, the
returned metadata version is rebuilt from the dotted components of the input
version with the leading component unchanged, the middle (revision)
component's integer value incremented by exactly one, and the trailing
(addition) component reset to the literal `0` — independently of which and
how many changes were applied. -/
theorem C5_success_bumps_revision (rawVersion jsonata : String)
    (schema_diff : SchemaDiff)
    (h : (patch_transform (loadTransform rawVersion jsonata)
        schema_diff true).success = true) :
    ∃ (m rev add : List Char) (n : Nat),
      splitOnChar '.' rawVersion.data = [m, rev, add]
      ∧ pyIntDec? rev = some (Int.ofNat n)
      ∧ (patch_transform (loadTransform rawVersion jsonata)
          schema_diff true).updated_meta
        = some ⟨String.mk (m ++ '.' :: intToChars (Int.ofNat n + 1)
            ++ ['.', '0'])⟩ := by
  by_cases hload : versionPatternOk rawVersion = true
  · have hloadok : loadTransform rawVersion jsonata
        = .ok ⟨⟨rawVersion⟩, jsonata⟩ := by
      unfold loadTransform
      rw [if_pos hload]
    obtain ⟨a, rev, c2, n, heq, hn, hbump⟩ := bump_of_patternOk hload
    refine ⟨a, rev, c2, n, heq, hn, ?_⟩
    rw [hloadok] at h ⊢
    unfold patch_transform at h ⊢
    dsimp only at h ⊢
    by_cases hnil : (patchLoop jsonata schema_diff.changes).2.1 = []
    · rw [if_pos hnil] at h
      exact absurd h (by simp)
    · rw [if_neg hnil] at h ⊢
      rw [if_pos rfl, hbump] at h ⊢
  · have hload2 : versionPatternOk rawVersion = false := by
      cases hx : versionPatternOk rawVersion
      · rfl
      · exact absurd hx hload
    unfold loadTransform at h
    rw [if_neg (by simp [hload2])] at h
    unfold patch_transform at h
    exact absurd h (by simp)

/-- Witness for C5: a successful patch of the body `{}` at version `1.0.0`
yields `1.1.0`. -/
theorem C5_success_bumps_revision_witness :
    ∃ (m rev add : List Char) (n : Nat),
      splitOnChar '.' ("1.0.0" : String).data = [m, rev, add]
      ∧ pyIntDec? rev = some (Int.ofNat n)
      ∧ (patch_transform (loadTransform "1.0.0" "{}")
          { changes := [{ change_type := ChangeType.ADD, path := "email",
                          description := "", auto_patchable := true }],
            auto_patchable_count := 1, manual_review_count := 0 }
          true).updated_meta
        = some ⟨String.mk (m ++ '.' :: intToChars (Int.ofNat n + 1)
            ++ ['.', '0'])⟩ :=
  C5_success_bumps_revision "1.0.0" "{}"
    { changes := [{ change_type := ChangeType.ADD, path := "email",
                    description := "", auto_patchable := true }],
      auto_patchable_count := 1, manual_review_count := 0 }
    (by decide)



/-! ### Lemmas for the add application -/

/-- The text strictly between the outer braces of a trimmed object body. -/
def objectInner (stripped : List Char) : List Char :=
  (stripped.drop 1).take (stripped.length - 2)

theorem dropWhile_append_all {p : Char → Bool} {a : List Char}
    (b : List Char) (h : ∀ c ∈ a, p c = true) :
    (a ++ b).dropWhile p = b.dropWhile p := by
  induction a with
  | nil => rfl
  | cons c r ih =>
    rw [List.cons_append, List.dropWhile_cons]
    simp only [h c (List.mem_cons_self c r)]
    exact ih (fun d hd => h d (List.mem_cons_of_mem c hd))

/-- The last occurrence of the closing brace in `pre ++ [the brace]` is at
index `pre.length`. -/
theorem lastIndexOf_concat (pre : List Char) :
    lastIndexOf (pre ++ ['}']) '}' = some pre.length := by
  induction pre with
  | nil => rfl
  | cons x r ih =>
    rw [List.cons_append]
    unfold lastIndexOf
    rw [ih]
    rfl

/-- C4 counterexample: the body `{x{}` trims to a text that starts with `{`
and ends with `}`, its object content `x{` is not whitespace-only, yet the
add is applied without any comma: the comma test is the syntactic condition
"the right-trimmed text before the last brace ends with `{`", which here
misreads a non-empty object as empty. -/
theorem C4_counterexample :
    _apply_add "\x7bx\x7b\x7d"
        { change_type := ChangeType.ADD, path := "f", description := "",
          auto_patchable := true }
      = some "\x7bx\x7b  \x22f\x22: null\n\x7d"
    ∧ (objectInner (pyStrip ("\x7bx\x7b\x7d" : String).data)).all isPySpace = false
    ∧ (("\x7bx\x7b  \x22f\x22: null\n\x7d" : String).data.contains ',') = false := by
  decide

/-- C4 (amended): the add succeeds exactly when the body, after trimming
whitespace, starts with `{` and ends with `}`; on success the new field is
inserted as a quoted key with a `null` placeholder immediately before the
final closing brace, preceded by a comma exactly when the right-trimmed text
before that brace does not end with an opening brace — in particular, when
the text between the braces is whitespace-only (an empty object) no comma is
inserted; on any other body shape the add is skipped (`none`). -/
theorem C4_apply_add (body : String) (ch : SchemaChange) :
    ((_apply_add body ch).isSome = true ↔
      (pyStrip body.data).head? = some '{'
        ∧ (pyStrip body.data).getLast? = some '}')
    ∧ (∀ out, _apply_add body ch = some out →
        ∃ pre : List Char,
          pyStrip body.data = pre ++ ['}']
          ∧ out.data = pre
              ++ (if (pyRStrip pre).getLast? = some '{'
                  then ("  \x22" ++ ch.path ++ "\x22: null").data
                  else (",\n  \x22" ++ ch.path ++ "\x22: null").data)
              ++ ['\n', '}']
          ∧ ((objectInner (pyStrip body.data)).all isPySpace = true →
              (pyRStrip pre).getLast? = some '{')) := by
  constructor
  · unfold _apply_add
    by_cases h1 : (pyStrip body.data).head? = some '{'
    · by_cases h2 : (pyStrip body.data).getLast? = some '}'
      · have hb : ((pyStrip body.data).head? == some '{'
            && (pyStrip body.data).getLast? == some '}') = true := by
          simp [h1, h2]
        rw [if_pos hb]
        rcases List.eq_nil_or_concat (pyStrip body.data) with hnil | ⟨pre, x, hx⟩
        · rw [hnil] at h1
          simp at h1
        · rw [List.concat_eq_append] at hx
          have hxb : x = '}' := by
            have h2c := h2
            rw [hx, List.getLast?_concat] at h2c
            exact Option.some.inj h2c
          subst hxb
          refine iff_of_true ?_ ⟨h1, h2⟩
          rw [hx, lastIndexOf_concat]
          simp
      · have hg : ((pyStrip body.data).getLast? == some '}') = false :=
          beq_eq_false_iff_ne.mpr h2
        rw [if_neg (by simp [hg])]
        simp [h2]
    · have hg : ((pyStrip body.data).head? == some '{') = false :=
        beq_eq_false_iff_ne.mpr h1
      rw [if_neg (by simp [hg])]
      simp [h1]
  · intro out hout
    unfold _apply_add at hout
    by_cases hb : ((pyStrip body.data).head? == some '{'
        && (pyStrip body.data).getLast? == some '}') = true
    · rw [if_pos hb] at hout
      have hcond := hb
      simp only [Bool.and_eq_true, beq_iff_eq] at hcond
      obtain ⟨h1, h2⟩ := hcond
      rcases List.eq_nil_or_concat (pyStrip body.data) with hnil | ⟨pre, x, hx⟩
      · rw [hnil] at h1
        simp at h1
      · rw [List.concat_eq_append] at hx
        have hxb : x = '}' := by
          have h2c := h2
          rw [hx, List.getLast?_concat] at h2c
          exact Option.some.inj h2c
        subst hxb
        rw [hx, lastIndexOf_concat] at hout
        dsimp only at hout
        rw [List.take_left, List.drop_left] at hout
        refine ⟨pre, hx, ?_, ?_⟩
        · have hinj := Option.some.inj hout
          rw [← hinj]
          simp only [beq_iff_eq]
        · intro hws
          rcases pre with _ | ⟨p0, inner⟩
          · rw [hx] at h1
            simp at h1
          · have hp0 : p0 = '{' := by
              have h1c := h1
              rw [hx] at h1c
              simpa using h1c
            subst hp0
            have hinner : objectInner (pyStrip body.data) = inner := by
              rw [hx]
              unfold objectInner
              rw [List.cons_append]
              have hdrop1 : ('{' :: (inner ++ ['}'])).drop 1 = inner ++ ['}'] := rfl
              have hlen2 : ('{' :: (inner ++ ['}'])).length - 2 = inner.length := by
                simp
              rw [hdrop1, hlen2, List.take_left]
            rw [hinner] at hws
            unfold pyRStrip
            rw [show ('{' :: inner).reverse = inner.reverse ++ ['{'] by simp]
            rw [dropWhile_append_all _
              (fun c hc => List.all_eq_true.mp hws c (List.mem_reverse.mp hc))]
            decide
    · rw [if_neg hb] at hout
      exact absurd hout (by simp)


/-- Witness for C4: a simple object body passes the brace test, so the add is
applied. -/
theorem C4_apply_add_witness :
    (_apply_add "\x7b\x22name\x22: name\x7d"
        { change_type := ChangeType.ADD, path := "email", description := "",
          auto_patchable := true }).isSome = true :=
  (C4_apply_add "\x7b\x22name\x22: name\x7d"
    { change_type := ChangeType.ADD, path := "email", description := "",
      auto_patchable := true }).1.mpr ⟨by decide, by decide⟩


end Canonizer
